import Mathlib

/-!
Shallow embedding of the AI-program consistency engine of `src/program.rs`
(struct `AIProgram` and its methods), together with the pieces of
`src/util.rs` it relies on (`try_name`, `AIDefs::blank_ai`).

Modelling conventions, fixed once for the whole file:

* `roead`'s `ParameterIO` container is modelled by the `AIProgram`
  structure below.  The loader (`AIProgram::new`) validates that the four
  segment lists "AI", "Action", "Behavior", "Query" and the top-level
  object "DemoAIActionIdx" exist, so they are fields of the structure.
* `IndexMap` (the ordered map used by `roead` for lists, objects and
  parameters) is modelled by an ordered association list.  `insert` is
  `alSet` (replace the value in place when the key is present, append
  otherwise), positional access is `List.get?`-style lookup,
  `shift_remove_index` is `List.eraseIdx` (out-of-range removal is a
  no-op, as `shift_remove_index` returning `None` is ignored by the
  code), `insert_full` is `insertFull`.
* Hashed keys (`u32` produced by `hash_name`) are modelled by the name
  strings themselves: `hash_name` is injective on the names a program
  uses, and the code treats hash equality as name equality throughout.
* `i32` parameter values are modelled by `Int`; the `as usize` cast that
  the code applies to reference values is modelled exactly by
  `usizeCast` (reduction modulo `2 ^ 64`), so that negative references
  never match a real index, as in the code.
* Rust panics (`unwrap` on `None`, out-of-range positional access) are
  modelled by `Option`/`MutErr.abort`; `anyhow` errors by
  `MutErr.err`.  The unbounded recursion of `update_names` is given an
  explicit fuel parameter; running out of fuel is `MutErr.nofuel`.
-/

/-- An association list with `String` keys: the model of `roead`'s
ordered `IndexMap`.  Lookup returns the value at the first matching
key. -/
def alGet {α : Type} : List (String × α) → String → Option α
  | [], _ => none
  | (k', v) :: xs, k => if k' = k then some v else alGet xs k

/-- `IndexMap::insert`: replace the value in place if the key is
present, append the binding otherwise. -/
def alSet {α : Type} : List (String × α) → String → α → List (String × α)
  | [], k, v => [(k, v)]
  | (k', v') :: xs, k, v =>
    if k' = k then (k', v) :: xs else (k', v') :: alSet xs k v

/-- Modify the value stored at the first occurrence of a key, leaving
the list unchanged when the key is absent (the code `unwrap`s in that
case, which is unreachable where this helper is used). -/
def alModify {α : Type} : List (String × α) → String → (α → α) → List (String × α)
  | [], _, _ => []
  | (k', v) :: xs, k, f =>
    if k' = k then (k', f v) :: xs else (k', v) :: alModify xs k f

/-- Modify the element at a position of a list; out of range is the
identity. -/
def modAt {α : Type} : List α → Nat → (α → α) → List α
  | [], _, _ => []
  | x :: xs, 0, f => f x :: xs
  | x :: xs, n + 1, f => x :: modAt xs n f

theorem alGet_alSet_self {α : Type} (l : List (String × α)) (k : String) (v : α) :
    alGet (alSet l k v) k = some v := by
  induction l with
  | nil => simp [alGet, alSet]
  | cons hd tl ih =>
    by_cases h : hd.1 = k <;> simp [alGet, alSet, h, ih]

theorem alGet_alSet_other {α : Type} (l : List (String × α)) (k k' : String) (v : α)
    (h150 : k' ≠ k) : alGet (alSet l k v) k' = alGet l k' := by
  induction l with
  | nil => simp [alGet, alSet, Ne.symm h150]
  | cons hd tl ih =>
    by_cases h : hd.1 = k
    · subst h
      simp [alGet, alSet, Ne.symm h150]
    · by_cases h2 : hd.1 = k' <;> simp [alGet, alSet, h, h2, ih, h150]

theorem alGet_alModify_self {α : Type} (l : List (String × α)) (k : String) (f : α → α) :
    alGet (alModify l k f) k = (alGet l k).map f := by
  induction l with
  | nil => simp [alGet, alModify]
  | cons hd tl ih =>
    by_cases h : hd.1 = k <;> simp [alGet, alModify, h, ih]

theorem alGet_alModify_other {α : Type} (l : List (String × α)) (k k' : String) (f : α → α)
    (hne : k' ≠ k) : alGet (alModify l k f) k' = alGet l k' := by
  induction l with
  | nil => simp [alGet, alModify]
  | cons hd tl ih =>
    by_cases h : hd.1 = k
    · subst h
      simp [alGet, alModify, Ne.symm hne]
    · by_cases h2 : hd.1 = k' <;> simp [alGet, alModify, h, h2, ih, hne]

theorem modAt_getElem? {α : Type} (l : List α) (n : Nat) (f : α → α) (m : Nat) :
    (modAt l n f)[m]? = if n = m then (l[m]?).map f else l[m]? := by
  induction l generalizing n m with
  | nil => simp [modAt]
  | cons hd tl ih =>
    cases n with
    | zero =>
      cases m with
      | zero => simp [modAt]
      | succ m => simp [modAt]
    | succ n =>
      cases m with
      | zero => simp [modAt]
      | succ m =>
        simp only [modAt, List.getElem?_cons_succ, ih]
        by_cases h : n = m <;> simp [h]

theorem modAt_length {α : Type} (l : List α) (n : Nat) (f : α → α) :
    (modAt l n f).length = l.length := by
  induction l generalizing n with
  | nil => simp [modAt]
  | cons hd tl ih =>
    cases n with
    | zero => simp [modAt]
    | succ n => simp [modAt, ih]

theorem modAt_append_left {α : Type} (l₁ l₂ : List α) (n : Nat) (f : α → α)
    (h : n < l₁.length) : modAt (l₁ ++ l₂) n f = modAt l₁ n f ++ l₂ := by
  induction l₁ generalizing n with
  | nil => simp at h
  | cons hd tl ih =>
    cases n with
    | zero => simp [modAt]
    | succ n =>
      simp only [List.cons_append, modAt, List.cons.injEq, true_and]
      exact ih n (by simpa using h)

theorem modAt_append_right {α : Type} (l₁ l₂ : List α) (n : Nat) (f : α → α)
    (h : l₁.length ≤ n) : modAt (l₁ ++ l₂) n f = l₁ ++ modAt l₂ (n - l₁.length) f := by
  induction l₁ generalizing n with
  | nil => simp [modAt]
  | cons hd tl ih =>
    cases n with
    | zero => simp at h
    | succ n =>
      simp only [List.cons_append, modAt, List.cons.injEq, true_and]
      simpa using ih n (by simpa using h)

/-! ## The data model (`src/program.rs`, `roead::aamp` types) -/

/-- `roead::aamp::Parameter`, restricted to the shapes the consistency
engine inspects: `Int` (`i32`, modelled by `Int`), the two string
variants `StringRef` and `String32`, and `other` for every variant the
engine never reads (floats, vectors, booleans, ...). -/
inductive Param : Type
  | int (i : Int)
  | strRef (s : String)
  | str32 (s : String)
  | other
deriving DecidableEq

/-- `Parameter::as_int`, which succeeds exactly on the `Int` variant. -/
def Param.asInt : Param → Option Int
  | .int i => some i
  | _ => none

/-- `ParameterObject`: an ordered map from hashed parameter names to
parameters. -/
structure PObj : Type where
  params : List (String × Param)
deriving DecidableEq

/-- A record (`roead::aamp::ParameterList` as used for AI program
entries): an ordered map of named parameter objects (`Def`, `ChildIdx`,
`BehaviorIdx`, `SInst`, ...).  Nested sub-lists are never touched by
the consistency engine and are omitted. -/
structure Entry : Type where
  objects : List (String × PObj)
deriving DecidableEq

/-- The loaded AI program (`AIProgram(ParameterIO)` in `program.rs`).
`AIProgram::new` rejects any container that lacks one of the four
segment lists or the top-level `DemoAIActionIdx` object, so they appear
directly as fields.  `demo` is the parameter list of the
`DemoAIActionIdx` object. -/
structure AIProgram : Type where
  ais : List (String × Entry)
  actions : List (String × Entry)
  behaviors : List (String × Entry)
  queries : List (String × Entry)
  demo : List (String × Param)
deriving DecidableEq

/-- `AIProgram::actions_offset`: the number of AI records. -/
def actionsOffset (p : AIProgram) : Nat := p.ais.length

/-- `AIProgram::behaviors_offset`. -/
def behaviorsOffset (p : AIProgram) : Nat := p.ais.length + p.actions.length

/-- `AIProgram::queries_offset`. -/
def queriesOffset (p : AIProgram) : Nat :=
  p.ais.length + p.actions.length + p.behaviors.length

/-- `AIProgram::len`: the total record count over all four segments. -/
def lenP (p : AIProgram) : Nat :=
  p.ais.length + p.actions.length + p.behaviors.length + p.queries.length

/-- The records of the conceptual concatenation `AI ++ Action ++
Behavior ++ Query`, defining the Global Index space. -/
def allEntries (p : AIProgram) : List Entry :=
  p.ais.map (·.2) ++ p.actions.map (·.2) ++ p.behaviors.map (·.2) ++ p.queries.map (·.2)

/-- `AIProgram::item_at_index`: resolve a global index to a segment and
a local position via the offsets.  `none` models the `unwrap` panic the
code performs when the positional access fails (global index out of
range). -/
def itemAtIndex (p : AIProgram) (idx : Nat) : Option Entry :=
  if idx < actionsOffset p then (p.ais[idx]?).map (·.2)
  else if idx < behaviorsOffset p then
    (p.actions[idx - actionsOffset p]?).map (·.2)
  else if idx < queriesOffset p then
    (p.behaviors[idx - behaviorsOffset p]?).map (·.2)
  else (p.queries[idx - queriesOffset p]?).map (·.2)

/-- Modify the value (not the key) at a position of a segment list. -/
def modAtV (l : List (String × Entry)) (n : Nat) (f : Entry → Entry) :
    List (String × Entry) :=
  modAt l n (fun kv => (kv.1, f kv.2))

/-- `AIProgram::item_mut_at_index`, as a functional update: apply `f`
to the record at the given global index, using the same offset
arithmetic as the code.  The code panics when the index is out of
range; there the model returns the program unchanged (every call site
passes an in-range index). -/
def setItemAt (p : AIProgram) (idx : Nat) (f : Entry → Entry) : AIProgram :=
  if idx < actionsOffset p then { p with ais := modAtV p.ais idx f }
  else if idx < behaviorsOffset p then
    { p with actions := modAtV p.actions (idx - actionsOffset p) f }
  else if idx < queriesOffset p then
    { p with behaviors := modAtV p.behaviors (idx - behaviorsOffset p) f }
  else { p with queries := modAtV p.queries (idx - queriesOffset p) f }

/-- Read one parameter of one named object of the record at a global
index. -/
def getObjParam (p : AIProgram) (idx : Nat) (objName key : String) : Option Param :=
  (itemAtIndex p idx).bind fun e => (alGet e.objects objName).bind fun o => alGet o.params key

/-- `item.objects_mut().get_mut(objName).unwrap().params_mut().insert(key, v)`:
set one parameter of one named object of a record.  When the object is
absent the code panics; the model leaves the record unchanged (the
mutation sites only ever address objects the reference resolver just
found). -/
def entrySetObjParam (objName key : String) (v : Param) (e : Entry) : Entry :=
  ⟨alModify e.objects objName (fun o => ⟨alSet o.params key v⟩)⟩

theorem map_snd_modAtV (l : List (String × Entry)) (n : Nat) (f : Entry → Entry) :
    (modAtV l n f).map (·.2) = modAt (l.map (·.2)) n f := by
  induction l generalizing n with
  | nil => simp [modAtV, modAt]
  | cons hd tl ih =>
    cases n with
    | zero => simp [modAtV, modAt]
    | succ n => simpa [modAtV, modAt] using ih n

theorem modAtV_length (l : List (String × Entry)) (n : Nat) (f : Entry → Entry) :
    (modAtV l n f).length = l.length := modAt_length ..

theorem map_fst_modAtV (l : List (String × Entry)) (n : Nat) (f : Entry → Entry) :
    (modAtV l n f).map (·.1) = l.map (·.1) := by
  induction l generalizing n with
  | nil => simp [modAtV, modAt]
  | cons hd tl ih =>
    cases n with
    | zero => simp [modAtV, modAt]
    | succ n => simpa [modAtV, modAt] using ih n

/-- The offset arithmetic of `item_at_index` selects exactly the record
at the global index in the segment concatenation. -/
theorem itemAtIndex_eq_allEntries (p : AIProgram) (idx : Nat) :
    itemAtIndex p idx = (allEntries p)[idx]? := by
  unfold itemAtIndex allEntries actionsOffset behaviorsOffset queriesOffset
  simp only [List.getElem?_append, List.length_append, List.length_map,
    List.getElem?_map, Nat.sub_sub]
  split_ifs <;> first | rfl | omega

/-- `setItemAt` is the positional update of the concatenation. -/
theorem allEntries_setItemAt (p : AIProgram) (idx : Nat) (f : Entry → Entry) :
    allEntries (setItemAt p idx f) = modAt (allEntries p) idx f := by
  unfold setItemAt allEntries actionsOffset behaviorsOffset queriesOffset
  by_cases h1 : idx < p.ais.length
  · rw [if_pos h1,
      modAt_append_left _ _ _ _ (by simp only [List.length_append, List.length_map]; omega),
      modAt_append_left _ _ _ _ (by simp only [List.length_append, List.length_map]; omega),
      modAt_append_left _ _ _ _ (by simp only [List.length_map]; omega),
      map_snd_modAtV]
  · rw [if_neg h1]
    by_cases h2 : idx < p.ais.length + p.actions.length
    · rw [if_pos h2,
        modAt_append_left _ _ _ _ (by simp only [List.length_append, List.length_map]; omega),
        modAt_append_left _ _ _ _ (by simp only [List.length_append, List.length_map]; omega),
        modAt_append_right _ _ _ _ (by simp only [List.length_map]; omega)]
      simp only [map_snd_modAtV, List.length_map]
    · rw [if_neg h2]
      by_cases h3 : idx < p.ais.length + p.actions.length + p.behaviors.length
      · rw [if_pos h3,
          modAt_append_left _ _ _ _
            (by simp only [List.length_append, List.length_map]; omega),
          modAt_append_right _ _ _ _
            (by simp only [List.length_append, List.length_map]; omega)]
        simp only [map_snd_modAtV, List.length_append, List.length_map]
      · rw [if_neg h3,
          modAt_append_right _ _ _ _
            (by simp only [List.length_append, List.length_map]; omega)]
        simp only [map_snd_modAtV, List.length_append, List.length_map]

theorem setItemAt_segments_length (p : AIProgram) (idx : Nat) (f : Entry → Entry) :
    (setItemAt p idx f).ais.length = p.ais.length ∧
    (setItemAt p idx f).actions.length = p.actions.length ∧
    (setItemAt p idx f).behaviors.length = p.behaviors.length ∧
    (setItemAt p idx f).queries.length = p.queries.length := by
  unfold setItemAt
  split
  · simp [modAtV_length]
  · split
    · simp [modAtV_length]
    · split <;> simp [modAtV_length]

theorem setItemAt_demo (p : AIProgram) (idx : Nat) (f : Entry → Entry) :
    (setItemAt p idx f).demo = p.demo := by
  unfold setItemAt
  split
  · rfl
  · split
    · rfl
    · split <;> rfl

/-- Pointwise description of `setItemAt` through `itemAtIndex`. -/
theorem itemAtIndex_setItemAt (p : AIProgram) (idx : Nat) (f : Entry → Entry) (j : Nat) :
    itemAtIndex (setItemAt p idx f) j =
      if idx = j then (itemAtIndex p j).map f else itemAtIndex p j := by
  rw [itemAtIndex_eq_allEntries, itemAtIndex_eq_allEntries, allEntries_setItemAt,
    modAt_getElem?]

/-! ## The reference resolver (`AIProgram::references`) -/

/-- The `as usize` cast the code applies to an `i32` reference value
before comparing it with a target index (`v.as_int().unwrap() as usize
== idx`): two's-complement reinterpretation modulo `2 ^ 64`.  A
negative value such as `-1` therefore never matches a real index. -/
def usizeCast (j : Int) : Nat := (j % (2 ^ 64 : Int)).toNat

/-- The resolver's match predicate on a single parameter:
`v.as_int().is_ok() && v.as_int().unwrap() as usize == idx`. -/
def paramRefs (v : Param) (idx : Nat) : Bool :=
  match v.asInt with
  | some j => usizeCast j = idx
  | none => false

/-- One record's contribution to a reference map: the matching
parameter keys are collected into a `HashMap<usize, u32>` keyed by the
record's index, so only the last matching key survives. -/
def lastMatchKey (ps : List (String × Param)) (idx : Nat) : Option String :=
  ((ps.filter (fun kv => paramRefs kv.2 idx)).map (·.1)).getLast?

/-- The `References` struct of `program.rs`: for each kind, the set of
locations currently holding the target.  `demos` lists keys of the
`DemoAIActionIdx` object; the other three map a record index (AI-local
for `ai_children` and `ai_behaviours`, Action-local for
`action_behaviours`) to the single surviving parameter key. -/
structure References : Type where
  demos : List String
  ai_children : List (Nat × String)
  ai_behaviours : List (Nat × String)
  action_behaviours : List (Nat × String)
deriving DecidableEq

/-- Scan the AI segment for `ChildIdx` references to `idx`.  Fails
(`.context("Invalid AI")`) as soon as an AI record has no `ChildIdx`
object. -/
def collectChildRefs (idx : Nat) : Nat → List (String × Entry) → Option (List (Nat × String))
  | _, [] => some []
  | i, (_, e) :: rest =>
    match alGet e.objects "ChildIdx" with
    | none => none
    | some o =>
      match collectChildRefs idx (i + 1) rest with
      | none => none
      | some l =>
        some ((match lastMatchKey o.params idx with
               | some k => [(i, k)]
               | none => []) ++ l)

/-- Scan a segment for `BehaviorIdx` references to `idx`; records
without a `BehaviorIdx` object contribute nothing (no error). -/
def collectBehRefs (idx : Nat) : Nat → List (String × Entry) → List (Nat × String)
  | _, [] => []
  | i, (_, e) :: rest =>
    (match alGet e.objects "BehaviorIdx" with
     | none => []
     | some o =>
       match lastMatchKey o.params idx with
       | some k => [(i, k)]
       | none => []) ++ collectBehRefs idx (i + 1) rest

/-- `AIProgram::references` (lines 242-312): find every location whose
stored value matches `idx` under the resolver's raw comparison.  `none`
models the `anyhow` error raised when an AI record has no `ChildIdx`
object. -/
def references (p : AIProgram) (idx : Nat) : Option References :=
  match collectChildRefs idx 0 p.ais with
  | none => none
  | some children =>
    some
      { demos := (p.demo.filter (fun kv => paramRefs kv.2 idx)).map (·.1)
        ai_children := children
        ai_behaviours := collectBehRefs idx 0 p.ais
        action_behaviours := collectBehRefs idx 0 p.actions }

/-- Well-formedness used by the resolver: every AI record carries a
`ChildIdx` object. -/
def wfAIs (p : AIProgram) : Bool :=
  p.ais.all (fun kv => (alGet kv.2.objects "ChildIdx").isSome)

theorem collectChildRefs_isSome (idx : Nat) (es : List (String × Entry)) (i : Nat) :
    (collectChildRefs idx i es).isSome =
      es.all (fun kv => (alGet kv.2.objects "ChildIdx").isSome) := by
  induction es generalizing i with
  | nil => simp [collectChildRefs]
  | cons hd tl ih =>
    simp only [collectChildRefs, List.all_cons]
    cases h : alGet hd.2.objects "ChildIdx" with
    | none => simp [h]
    | some o =>
      cases h2 : collectChildRefs idx (i + 1) tl with
      | none =>
        have := ih (i + 1)
        rw [h2] at this
        simp [h, ← this]
      | some l =>
        have := ih (i + 1)
        rw [h2] at this
        simp [h, ← this]

theorem references_isSome_iff (p : AIProgram) (idx : Nat) :
    (references p idx).isSome ↔ wfAIs p = true := by
  unfold references wfAIs
  cases h : collectChildRefs idx 0 p.ais with
  | none =>
    have := collectChildRefs_isSome idx p.ais 0
    rw [h] at this
    simp [← this]
  | some l =>
    have := collectChildRefs_isSome idx p.ais 0
    rw [h] at this
    simp [← this]

/-! ## The mutation engine: `update_indexes` -/

/-- Outcome classification of a mutating call: `err` is an `anyhow`
error returned as `Err`, `abort` models a Rust panic (`unwrap` failure
or out-of-range index), `nofuel` is the model's fuel exhaustion for the
unbounded recursion of `update_names`. -/
inductive MutErr : Type
  | err (msg : String)
  | abort
  | nofuel
deriving DecidableEq

/-- The `DemoAIActionIdx` writes of `update_indexes` (lines 316-323):
each found key receives the raw `Parameter::Int(new)`. -/
def writeDemos (new : Int) (keys : List String) (p : AIProgram) : AIProgram :=
  keys.foldl (fun q key => { q with demo := alSet q.demo key (.int new) }) p

/-- The `ChildIdx` writes of `update_indexes` (lines 324-331): each
found location receives the raw `Parameter::Int(new)`. -/
def writeChildren (new : Int) (locs : List (Nat × String)) (p : AIProgram) : AIProgram :=
  locs.foldl (fun q ik => setItemAt q ik.1 (entrySetObjParam "ChildIdx" ik.2 (.int new))) p

/-- The AI `BehaviorIdx` writes of `update_indexes` (lines 332-346):
when any location was found, the written value is `new -
behaviors_offset` if `new > 0` and the raw `new` otherwise. -/
def writeAIBehaviours (new : Int) (locs : List (Nat × String)) (p : AIProgram) : AIProgram :=
  if locs.isEmpty then p
  else
    let bidx : Int := if 0 < new then new - (behaviorsOffset p : Int) else new
    locs.foldl (fun q ik => setItemAt q ik.1 (entrySetObjParam "BehaviorIdx" ik.2 (.int bidx))) p

/-- The Action `BehaviorIdx` writes of `update_indexes` (lines
347-362): as for AI records, with the global index `actions_offset +
local index`. -/
def writeActionBehaviours (new : Int) (locs : List (Nat × String)) (p : AIProgram) : AIProgram :=
  if locs.isEmpty then p
  else
    let bidx : Int := if 0 < new then new - (behaviorsOffset p : Int) else new
    let aoff := actionsOffset p
    locs.foldl
      (fun q ik => setItemAt q (aoff + ik.1) (entrySetObjParam "BehaviorIdx" ik.2 (.int bidx))) p

/-- `AIProgram::update_indexes(old, new)` (lines 314-364): find every
location referencing `old` and overwrite it, category by category in
the order the code performs the writes.  The pair's second component
carries the error; on error the program is returned unmutated, exactly
as in the code (the `?` on `references` precedes every write). -/
def updateIndexes (p : AIProgram) (old : Nat) (new : Int) : AIProgram × Option MutErr :=
  match references p old with
  | none => (p, some (.err "Invalid AI"))
  | some refs =>
    (writeActionBehaviours new refs.action_behaviours
      (writeAIBehaviours new refs.ai_behaviours
        (writeChildren new refs.ai_children
          (writeDemos new refs.demos p))), none)

/-- Generic preservation of an invariant by a left fold. -/
theorem foldl_inv {β : Type} (P : AIProgram → Prop) (step : AIProgram → β → AIProgram)
    (h : ∀ q b, P q → P (step q b)) :
    ∀ (l : List β) (q : AIProgram), P q → P (l.foldl step q) := by
  intro l
  induction l with
  | nil => intro q hq; exact hq
  | cons hd tl ih => intro q hq; exact ih (step q hd) (h q hd hq)

theorem all_modAt {α : Type} (l : List α) (n : Nat) (g : α → α) (pred : α → Bool)
    (h : ∀ x, pred (g x) = pred x) : (modAt l n g).all pred = l.all pred := by
  induction l generalizing n with
  | nil => simp [modAt]
  | cons hd tl ih =>
    cases n with
    | zero => simp [modAt, h]
    | succ n => simp [modAt, ih]

theorem entrySetObjParam_hasObj (o k : String) (v : Param) (e : Entry) (n : String) :
    (alGet (entrySetObjParam o k v e).objects n).isSome = (alGet e.objects n).isSome := by
  unfold entrySetObjParam
  by_cases h : n = o
  · subst h
    rw [alGet_alModify_self]
    cases alGet e.objects n <;> rfl
  · rw [alGet_alModify_other _ _ _ _ h]

/-- The segment sizes of a program, which determine all offsets. -/
def segLens (p : AIProgram) : Nat × Nat × Nat × Nat :=
  (p.ais.length, p.actions.length, p.behaviors.length, p.queries.length)

theorem segLens_setItemAt (p : AIProgram) (i : Nat) (f : Entry → Entry) :
    segLens (setItemAt p i f) = segLens p := by
  obtain ⟨h1, h2, h3, h4⟩ := setItemAt_segments_length p i f
  simp [segLens, h1, h2, h3, h4]

theorem wfAIs_setItemAt (p : AIProgram) (i : Nat) (o k : String) (v : Param) :
    wfAIs (setItemAt p i (entrySetObjParam o k v)) = wfAIs p := by
  unfold setItemAt wfAIs
  split
  · exact all_modAt _ _ _ _ (fun x => entrySetObjParam_hasObj o k v x.2 "ChildIdx")
  · split
    · rfl
    · split <;> rfl

theorem segLens_writeDemos (new : Int) (keys : List String) (p : AIProgram) :
    segLens (writeDemos new keys p) = segLens p :=
  foldl_inv (fun q => segLens q = segLens p)
    (fun q key => { q with demo := alSet q.demo key (.int new) })
    (fun _ _ hq => hq) keys p rfl

theorem segLens_writeChildren (new : Int) (locs : List (Nat × String)) (p : AIProgram) :
    segLens (writeChildren new locs p) = segLens p := by
  unfold writeChildren
  refine foldl_inv (fun q => segLens q = segLens p) _ ?_ locs p rfl
  intro q ik hq
  exact (segLens_setItemAt q ik.1 _).trans hq

theorem segLens_writeAIBehaviours (new : Int) (locs : List (Nat × String)) (p : AIProgram) :
    segLens (writeAIBehaviours new locs p) = segLens p := by
  unfold writeAIBehaviours
  split
  · rfl
  · refine foldl_inv (fun q => segLens q = segLens p) _ ?_ locs p rfl
    intro q ik hq
    exact (segLens_setItemAt q ik.1 _).trans hq

theorem segLens_writeActionBehaviours (new : Int) (locs : List (Nat × String)) (p : AIProgram) :
    segLens (writeActionBehaviours new locs p) = segLens p := by
  unfold writeActionBehaviours
  split
  · rfl
  · refine foldl_inv (fun q => segLens q = segLens p) _ ?_ locs p rfl
    intro q ik hq
    exact (segLens_setItemAt q _ _).trans hq

theorem wfAIs_writeDemos (new : Int) (keys : List String) (p : AIProgram) :
    wfAIs (writeDemos new keys p) = wfAIs p := by
  unfold writeDemos
  refine foldl_inv (fun q => wfAIs q = wfAIs p) _ ?_ keys p rfl
  intro q b hq
  exact hq

theorem wfAIs_writeChildren (new : Int) (locs : List (Nat × String)) (p : AIProgram) :
    wfAIs (writeChildren new locs p) = wfAIs p := by
  unfold writeChildren
  refine foldl_inv (fun q => wfAIs q = wfAIs p) _ ?_ locs p rfl
  intro q ik hq
  exact (wfAIs_setItemAt q ik.1 _ _ _).trans hq

theorem wfAIs_writeAIBehaviours (new : Int) (locs : List (Nat × String)) (p : AIProgram) :
    wfAIs (writeAIBehaviours new locs p) = wfAIs p := by
  unfold writeAIBehaviours
  split
  · rfl
  · refine foldl_inv (fun q => wfAIs q = wfAIs p) _ ?_ locs p rfl
    intro q ik hq
    exact (wfAIs_setItemAt q ik.1 _ _ _).trans hq

theorem wfAIs_writeActionBehaviours (new : Int) (locs : List (Nat × String)) (p : AIProgram) :
    wfAIs (writeActionBehaviours new locs p) = wfAIs p := by
  unfold writeActionBehaviours
  split
  · rfl
  · refine foldl_inv (fun q => wfAIs q = wfAIs p) _ ?_ locs p rfl
    intro q ik hq
    exact (wfAIs_setItemAt q _ _ _ _).trans hq

theorem updateIndexes_fst_of_err (p : AIProgram) (old : Nat) (new : Int) (e : MutErr)
    (h : (updateIndexes p old new).2 = some e) : (updateIndexes p old new).1 = p := by
  unfold updateIndexes at h ⊢
  cases href : references p old with
  | none => rfl
  | some refs => rw [href] at h; simp at h

theorem updateIndexes_snd_none_iff (p : AIProgram) (old : Nat) (new : Int) :
    (updateIndexes p old new).2 = none ↔ wfAIs p = true := by
  rw [← references_isSome_iff p old]
  unfold updateIndexes
  cases href : references p old <;> simp [href]

theorem updateIndexes_segLens (p : AIProgram) (old : Nat) (new : Int) :
    segLens (updateIndexes p old new).1 = segLens p := by
  unfold updateIndexes
  cases href : references p old with
  | none => rfl
  | some refs =>
    simp only [segLens_writeActionBehaviours, segLens_writeAIBehaviours,
      segLens_writeChildren, segLens_writeDemos]

theorem updateIndexes_wfAIs (p : AIProgram) (old : Nat) (new : Int) :
    wfAIs (updateIndexes p old new).1 = wfAIs p := by
  unfold updateIndexes
  cases href : references p old with
  | none => rfl
  | some refs =>
    simp only [wfAIs_writeActionBehaviours, wfAIs_writeAIBehaviours,
      wfAIs_writeChildren, wfAIs_writeDemos]

/-! ## `update_names` (`program.rs` lines 366-393, `util.rs` `try_name`) -/

/-- Modelled from the spec: `try_name` (`util.rs` lines 211-219)
recovers a human-readable name from a hashed key through the external
name table (`data/hashes.json`, not part of the sources) with a
numbered-name fallback verified by re-hashing.  Keys are modelled by
the names themselves, so the spec's "exact match" resolution is the
identity. -/
def try_name (k : String) : String := k

/-- The child-update collection pass of `update_names` (lines 375-385):
iterate the `ChildIdx` parameters, skip slots equal to `Int(-1)`, and
record `(v.as_int()? as usize, try_name(key))` for the rest; the first
slot whose value is not an `Int` aborts the whole collection
(`try_for_each` + `?`), before any recursion happens. -/
def collectUpdates : List (String × Param) → Option (List (Nat × String))
  | [] => some []
  | (k, v) :: rest =>
    if v = Param.int (-1) then collectUpdates rest
    else
      match v.asInt with
      | none => none
      | some j => (collectUpdates rest).map (fun l => (usizeCast j, try_name k) :: l)

/-- `AIProgram::update_names(idx, child, parent)` (lines 366-393): set
the record's `Def.Name` to `child` and `Def.GroupName` to `parent`,
collect the child updates from its `ChildIdx` object (if present), and
recurse on each collected `(index, name)` with `child` as the new
parent.  The recursion of the code is unbounded; the model adds a fuel
parameter.  Errors and panics carry the state reached so far: the
names are written before the child slots are validated. -/
def updateNames (fuel : Nat) (p : AIProgram) (idx : Nat) (child parent : String) :
    AIProgram × Option MutErr :=
  match fuel with
  | 0 => (p, some .nofuel)
  | fuel + 1 =>
    match itemAtIndex p idx with
    | none => (p, some .abort)
    | some item =>
      match alGet item.objects "Def" with
      | none => (p, some .abort)
      | some _ =>
        let p2 := setItemAt p idx (fun e =>
          entrySetObjParam "Def" "GroupName" (.strRef parent)
            (entrySetObjParam "Def" "Name" (.strRef child) e))
        let slots :=
          match alGet item.objects "ChildIdx" with
          | some o => o.params
          | none => []
        match collectUpdates slots with
        | none => (p2, some (.err "invalid child index"))
        | some ups =>
          ups.foldl
            (fun acc iu =>
              match acc.2 with
              | some _ => acc
              | none => updateNames fuel acc.1 iu.1 iu.2 child)
            (p2, none)

/-- The recursion scheme described by the specification (one pass over
the `ChildIdx` slots, recursing immediately on each non-`-1` slot with
`try_name key` as the child name and the just-set name as new parent),
written independently of the code's two-phase collect-then-recurse
shape, for comparison with `updateNames`. -/
def updateNamesSpec (fuel : Nat) (p : AIProgram) (idx : Nat) (child parent : String) :
    AIProgram × Option MutErr :=
  match fuel with
  | 0 => (p, some .nofuel)
  | fuel + 1 =>
    match itemAtIndex p idx with
    | none => (p, some .abort)
    | some item =>
      match alGet item.objects "Def" with
      | none => (p, some .abort)
      | some _ =>
        let p2 := setItemAt p idx (fun e =>
          entrySetObjParam "Def" "GroupName" (.strRef parent)
            (entrySetObjParam "Def" "Name" (.strRef child) e))
        let slots :=
          match alGet item.objects "ChildIdx" with
          | some o => o.params
          | none => []
        slots.foldl
          (fun acc kv =>
            match acc.2 with
            | some _ => acc
            | none =>
              if kv.2 = Param.int (-1) then acc
              else
                match kv.2.asInt with
                | none => (acc.1, some (.err "invalid child index"))
                | some j => updateNamesSpec fuel acc.1 (usizeCast j) (try_name kv.1) child)
          (p2, none)

/-! ## `add_entry` (`program.rs` lines 395-467, `util.rs` `blank_ai`) -/

/-- The `Category` enum of `app.rs`. -/
inductive Category : Type
  | ai
  | action
  | behaviour
  | query
deriving DecidableEq

/-- One class definition from the external `aidef.json` catalog, with
only the fields `blank_ai` reads: the declared child slot names
(`childs`; `ChildEntries::List` keeps its order, `ChildEntries::Map`
contributes its keys in sorted order, `ChildEntries::None` is the
empty list — all three produce a `ChildIdx` object), and the
`StaticInstParams` already converted to default parameter values by
`default_parameter`. -/
structure AIDef : Type where
  childs : Option (List String)
  sinst : Option (List (String × Param))
deriving DecidableEq

/-- Modelled from the spec: the class-definition catalog (`AIDefs`,
deserialized in `util.rs` from the external `data/aidef.json`, which is
not part of the sources).  A `none` entry value is the bare
`AIDefEntry::None` variant. -/
structure AIDefs : Type where
  ais : List (String × Option AIDef)
  actions : List (String × Option AIDef)
  behaviors : List (String × Option AIDef)
  querys : List (String × Option AIDef)
deriving DecidableEq

def catDefs (defs : AIDefs) : Category → List (String × Option AIDef)
  | .ai => defs.ais
  | .action => defs.actions
  | .behaviour => defs.behaviors
  | .query => defs.querys

/-- `AIDefs::blank_ai` (`util.rs` lines 114-172): seed a fresh record
with a `Def` object (`Name`/`GroupName` empty strings for AI and
Action, then `ClassName`), then a `ChildIdx` object with one `-1` slot
per declared child, then an `SInst` object with the default static
parameters.  `none` models the `unwrap` panic on a class missing from
the catalog. -/
def blank_ai (defs : AIDefs) (cat : Category) (cls : String) : Option Entry :=
  let defParams : List (String × Param) :=
    (match cat with
     | .ai | .action => [("Name", Param.strRef ""), ("GroupName", Param.strRef "")]
     | _ => []) ++ [("ClassName", Param.str32 cls)]
  match alGet (catDefs defs cat) cls with
  | none => none
  | some entryDef =>
    match entryDef with
    | none => some ⟨[("Def", ⟨defParams⟩)]⟩
    | some d =>
      let objs : List (String × PObj) := [("Def", ⟨defParams⟩)]
      let objs :=
        match d.childs with
        | none => objs
        | some names => objs ++ [("ChildIdx", ⟨names.map (fun n => (n, Param.int (-1)))⟩)]
      let objs :=
        match d.sinst with
        | none => objs
        | some ps => objs ++ [("SInst", ⟨ps⟩)]
      some ⟨objs⟩

/-- `IndexMap::insert_full`: replace in place and return the existing
position when the key is present, append and return the new position
otherwise. -/
def insertFull (l : List (String × Entry)) (k : String) (v : Entry) :
    List (String × Entry) × Nat :=
  match l.findIdx? (fun kv => kv.1 == k) with
  | some i => (alSet l k v, i)
  | none => (l ++ [(k, v)], l.length)

/-- The descending shift loop of `add_entry`: `update_indexes(i, i+1)`
for each index in the list, short-circuiting on the first error. -/
def shiftUp (l : List Nat) (p : AIProgram) : AIProgram × Option MutErr :=
  l.foldl
    (fun acc i =>
      match acc.2 with
      | some _ => acc
      | none => updateIndexes acc.1 i ((i : Int) + 1))
    (p, none)

/-- `AIProgram::add_entry(category, class)` (lines 395-467): shift
every reference at or beyond the target segment's end up by one (in
descending order), then append the blank record at the end of its
segment under the synthesized key `"<Segment>_<local index>"`, and
return the new record's global index. -/
def addEntry (defs : AIDefs) (p : AIProgram) (cat : Category) (cls : String) :
    AIProgram × Except MutErr Nat :=
  match blank_ai defs cat cls with
  | none => (p, .error .abort)
  | some entry =>
    match cat with
    | .ai =>
      match shiftUp ((List.range' (actionsOffset p) (lenP p - actionsOffset p)).reverse) p with
      | (p1, some e) => (p1, .error e)
      | (p1, none) =>
        let newIdx := actionsOffset p1
        let ins := insertFull p1.ais ("AI_" ++ toString newIdx) entry
        ({ p1 with ais := ins.1 }, .ok ins.2)
    | .action =>
      match shiftUp ((List.range' (behaviorsOffset p) (lenP p - behaviorsOffset p)).reverse) p with
      | (p1, some e) => (p1, .error e)
      | (p1, none) =>
        let newIdx := behaviorsOffset p1 - actionsOffset p1
        let ins := insertFull p1.actions ("Action_" ++ toString newIdx) entry
        let p2 := { p1 with actions := ins.1 }
        (p2, .ok (ins.2 + actionsOffset p2))
    | .behaviour =>
      match shiftUp ((List.range' (queriesOffset p) (lenP p - queriesOffset p)).reverse) p with
      | (p1, some e) => (p1, .error e)
      | (p1, none) =>
        let newIdx := queriesOffset p1 - behaviorsOffset p1
        let ins := insertFull p1.behaviors ("Behavior_" ++ toString newIdx) entry
        let p2 := { p1 with behaviors := ins.1 }
        (p2, .ok (ins.2 + behaviorsOffset p2))
    | .query =>
      let newIdx := lenP p - queriesOffset p
      let ins := insertFull p.queries ("Query_" ++ toString newIdx) entry
      let p2 := { p with queries := ins.1 }
      (p2, .ok (ins.2 + queriesOffset p2))

/-! ## `delete_entry` (`program.rs` lines 469-527) -/

/-- The ascending shift loop of `delete_entry`: `update_indexes(i,
i-1)` for each index in the list, short-circuiting on the first
error. -/
def shiftDown (l : List Nat) (p : AIProgram) : AIProgram × Option MutErr :=
  l.foldl
    (fun acc i =>
      match acc.2 with
      | some _ => acc
      | none => updateIndexes acc.1 i ((i : Int) - 1))
    (p, none)

/-- The key-renumbering pass of `delete_entry` (lines 517-525): clear
the segment and re-insert every record under the synthesized numbered
key `"<Segment>_<position>"`, keeping the values. -/
def renumber (cat : String) (l : List (String × Entry)) : List (String × Entry) :=
  l.enum.map (fun ie => (cat ++ "_" ++ toString ie.1, ie.2.2))

/-- The removal step of `delete_entry` (lines 471-510): resolve the
global index to a segment by the current offsets, remove the record at
the segment-local position (order-preserving `shift_remove_index`; an
out-of-range removal is silently ignored), and report the segment's
name. -/
def removeAt (p1 : AIProgram) (idx : Nat) : AIProgram × String :=
  if idx < actionsOffset p1 then
    ({ p1 with ais := p1.ais.eraseIdx idx }, "AI")
  else if idx < behaviorsOffset p1 then
    ({ p1 with actions := p1.actions.eraseIdx (idx - actionsOffset p1) }, "Action")
  else if idx < queriesOffset p1 then
    ({ p1 with behaviors := p1.behaviors.eraseIdx (idx - behaviorsOffset p1) }, "Behavior")
  else ({ p1 with queries := p1.queries.eraseIdx (idx - queriesOffset p1) }, "Query")

/-- Apply the renumbering pass to the segment selected by name
(`self.0.list_mut(category)`). -/
def renumberSeg (cat : String) (p3 : AIProgram) : AIProgram :=
  if cat = "AI" then { p3 with ais := renumber "AI" p3.ais }
  else if cat = "Action" then { p3 with actions := renumber "Action" p3.actions }
  else if cat = "Behavior" then { p3 with behaviors := renumber "Behavior" p3.behaviors }
  else { p3 with queries := renumber "Query" p3.queries }

/-- The tail of `delete_entry` after the removal: the ascending shift
loop over `idx..self.len()` followed by the renumbering pass. -/
def deleteTail (idx : Nat) (step2 : AIProgram × String) : AIProgram × Option MutErr :=
  match shiftDown (List.range' idx (lenP step2.1 - idx)) step2.1 with
  | (p3, some e) => (p3, some e)
  | (p3, none) => (renumberSeg step2.2 p3, none)

/-- `AIProgram::delete_entry(idx)` (lines 469-527): clear every
reference to `idx` (`update_indexes(idx, -1)`), remove the record from
its segment by position (order-preserving; an out-of-range removal is
silently ignored), run `update_indexes(i, i-1)` for `i` from `idx` to
the new total count (exclusive) in ascending order, and renumber the
affected segment's keys. -/
def deleteEntry (p : AIProgram) (idx : Nat) : AIProgram × Option MutErr :=
  match updateIndexes p idx (-1) with
  | (p1, some e) => (p1, some e)
  | (p1, none) => deleteTail idx (removeAt p1 idx)

/-! ## `roots` (`program.rs` lines 529-546) -/

/-- `AIProgram::roots`: the AI-segment indices whose `ai_children`
reference map is empty, in AI iteration order; any resolver error
aborts the whole computation. -/
def roots (p : AIProgram) : Option (List Nat) :=
  (List.range p.ais.length).foldr
    (fun i acc =>
      match references p i, acc with
      | none, _ => none
      | some _, none => none
      | some refs, some l => some (if refs.ai_children.isEmpty then i :: l else l))
    (some [])

/-- Direct characterization used to state root correctness: some AI
record's `ChildIdx` object holds a parameter matching `i` under the
resolver's comparison. -/
def isChildTarget (p : AIProgram) (i : Nat) : Bool :=
  p.ais.any (fun kv =>
    match alGet kv.2.objects "ChildIdx" with
    | some o => o.params.any (fun kp => paramRefs kp.2 i)
    | none => false)

instance : DecidableEq (Except MutErr Nat) := fun a b =>
  match a, b with
  | .ok x, .ok y =>
    if h : x = y then isTrue (by rw [h]) else isFalse (by simp [h])
  | .error x, .error y =>
    if h : x = y then isTrue (by rw [h]) else isFalse (by simp [h])
  | .ok _, .error _ => isFalse (by simp)
  | .error _, .ok _ => isFalse (by simp)

/-! ## Per-location correctness of the `update_indexes` writes -/

/-- The record at global index `i` exists and carries the named
object. -/
def objPresent (p : AIProgram) (i : Nat) (o : String) : Prop :=
  ∃ e, itemAtIndex p i = some e ∧ (alGet e.objects o).isSome

theorem getObjParam_setItemAt_self (p : AIProgram) (i : Nat) (o k : String) (v : Param)
    (h : objPresent p i o) :
    getObjParam (setItemAt p i (entrySetObjParam o k v)) i o k = some v := by
  obtain ⟨e, he, hobj⟩ := h
  unfold getObjParam
  rw [itemAtIndex_setItemAt, if_pos rfl, he]
  simp only [Option.map_some', Option.some_bind]
  unfold entrySetObjParam
  rw [alGet_alModify_self]
  cases hov : alGet e.objects o with
  | none => rw [hov] at hobj; simp at hobj
  | some oo =>
    simp only [Option.map_some', Option.some_bind]
    exact alGet_alSet_self oo.params k v

theorem getObjParam_setItemAt_same_value (p : AIProgram) (i j : Nat) (o o' k k' : String)
    (v : Param) (h : getObjParam p j o' k' = some v) :
    getObjParam (setItemAt p i (entrySetObjParam o k v)) j o' k' = some v := by
  unfold getObjParam at h ⊢
  rw [itemAtIndex_setItemAt]
  by_cases hij : i = j
  · rw [if_pos hij]
    cases he : itemAtIndex p j with
    | none => rw [he] at h; simp at h
    | some e =>
      rw [he] at h
      simp only [Option.some_bind] at h
      simp only [Option.map_some', Option.some_bind]
      unfold entrySetObjParam
      by_cases ho : o' = o
      · subst ho
        rw [alGet_alModify_self]
        cases hov : alGet e.objects o' with
        | none => rw [hov] at h; simp at h
        | some oo =>
          rw [hov] at h
          simp only [Option.some_bind] at h
          simp only [Option.map_some', Option.some_bind]
          by_cases hk : k' = k
          · subst hk
            rw [h] at *
            exact alGet_alSet_self oo.params k' v
          · rw [alGet_alSet_other _ _ _ _ hk]
            exact h
      · rw [alGet_alModify_other _ _ _ _ ho]
        exact h
  · rw [if_neg hij]
    exact h

theorem getObjParam_setItemAt_other_obj (p : AIProgram) (i j : Nat) (o o' k k' : String)
    (v : Param) (ho : o' ≠ o) :
    getObjParam (setItemAt p i (entrySetObjParam o k v)) j o' k' = getObjParam p j o' k' := by
  unfold getObjParam
  rw [itemAtIndex_setItemAt]
  by_cases hij : i = j
  · rw [if_pos hij]
    cases he : itemAtIndex p j with
    | none => simp
    | some e =>
      simp only [Option.map_some', Option.some_bind]
      unfold entrySetObjParam
      rw [alGet_alModify_other _ _ _ _ ho]
  · rw [if_neg hij]

theorem objPresent_setItemAt (p : AIProgram) (i j : Nat) (o o' k : String) (v : Param)
    (h : objPresent p j o) :
    objPresent (setItemAt p i (entrySetObjParam o' k v)) j o := by
  obtain ⟨e, he, hobj⟩ := h
  rw [objPresent, itemAtIndex_setItemAt]
  by_cases hij : i = j
  · rw [if_pos hij, he]
    exact ⟨_, rfl, by rw [entrySetObjParam_hasObj]; exact hobj⟩
  · rw [if_neg hij]
    exact ⟨e, he, hobj⟩

theorem fold_obj_pres_value (o : String) (v : Param) (g : Nat × String → Nat)
    (locs : List (Nat × String)) (j : Nat) (o' k' : String) :
    ∀ (q : AIProgram), getObjParam q j o' k' = some v →
      getObjParam
        (locs.foldl (fun q ik => setItemAt q (g ik) (entrySetObjParam o ik.2 v)) q)
        j o' k' = some v := by
  induction locs with
  | nil => intro q h; exact h
  | cons hd tl ih =>
    intro q h
    exact ih _ (getObjParam_setItemAt_same_value _ _ _ _ _ _ _ _ h)

theorem fold_objPresent (o : String) (v : Param) (g : Nat × String → Nat)
    (locs : List (Nat × String)) (j : Nat) (o' : String) :
    ∀ (q : AIProgram), objPresent q j o' →
      objPresent
        (locs.foldl (fun q ik => setItemAt q (g ik) (entrySetObjParam o ik.2 v)) q) j o' := by
  induction locs with
  | nil => intro q h; exact h
  | cons hd tl ih =>
    intro q h
    exact ih _ (objPresent_setItemAt _ _ _ _ _ _ _ h)

theorem fold_obj_est (o : String) (v : Param) (g : Nat × String → Nat) :
    ∀ (locs : List (Nat × String)) (q : AIProgram),
      (∀ ik ∈ locs, objPresent q (g ik) o) →
      ∀ ik ∈ locs,
        getObjParam
          (locs.foldl (fun q ik => setItemAt q (g ik) (entrySetObjParam o ik.2 v)) q)
          (g ik) o ik.2 = some v := by
  intro locs
  induction locs with
  | nil => intro q _ ik h; cases h
  | cons hd tl ih =>
    intro q hpres ik hmem
    simp only [List.foldl_cons]
    rcases List.mem_cons.mp hmem with heq | htl
    · subst heq
      exact fold_obj_pres_value o v g tl _ _ _ _
        (getObjParam_setItemAt_self _ _ _ _ _ (hpres ik (List.mem_cons_self _ _)))
    · exact ih _
        (fun ik' h' => objPresent_setItemAt _ _ _ _ _ _ _
          (hpres ik' (List.mem_cons_of_mem _ h'))) ik htl

theorem fold_obj_other (o : String) (v : Param) (g : Nat × String → Nat)
    (locs : List (Nat × String)) (j : Nat) (o' k' : String) (ho : o' ≠ o) :
    ∀ (q : AIProgram),
      getObjParam
        (locs.foldl (fun q ik => setItemAt q (g ik) (entrySetObjParam o ik.2 v)) q)
        j o' k' = getObjParam q j o' k' := by
  induction locs with
  | nil => intro q; rfl
  | cons hd tl ih =>
    intro q
    rw [List.foldl_cons, ih, getObjParam_setItemAt_other_obj _ _ _ _ _ _ _ _ ho]

theorem fold_demo (o : String) (v : Param) (g : Nat × String → Nat)
    (locs : List (Nat × String)) :
    ∀ (q : AIProgram),
      (locs.foldl (fun q ik => setItemAt q (g ik) (entrySetObjParam o ik.2 v)) q).demo
        = q.demo := by
  induction locs with
  | nil => intro q; rfl
  | cons hd tl ih =>
    intro q
    rw [List.foldl_cons, ih, setItemAt_demo]

theorem writeDemos_segments (new : Int) (keys : List String) :
    ∀ (p : AIProgram), (writeDemos new keys p).ais = p.ais ∧
      (writeDemos new keys p).actions = p.actions ∧
      (writeDemos new keys p).behaviors = p.behaviors ∧
      (writeDemos new keys p).queries = p.queries := by
  induction keys with
  | nil => intro p; exact ⟨rfl, rfl, rfl, rfl⟩
  | cons hd tl ih =>
    intro p
    exact ih _

theorem itemAtIndex_congr (p q : AIProgram) (i : Nat) (h1 : q.ais = p.ais)
    (h2 : q.actions = p.actions) (h3 : q.behaviors = p.behaviors)
    (h4 : q.queries = p.queries) : itemAtIndex q i = itemAtIndex p i := by
  unfold itemAtIndex actionsOffset behaviorsOffset queriesOffset
  rw [h1, h2, h3, h4]

theorem getObjParam_writeDemos (new : Int) (keys : List String) (p : AIProgram)
    (i : Nat) (o k : String) :
    getObjParam (writeDemos new keys p) i o k = getObjParam p i o k := by
  obtain ⟨h1, h2, h3, h4⟩ := writeDemos_segments new keys p
  unfold getObjParam
  rw [itemAtIndex_congr _ _ _ h1 h2 h3 h4]

theorem objPresent_writeDemos (new : Int) (keys : List String) (p : AIProgram)
    (i : Nat) (o : String) (h : objPresent p i o) :
    objPresent (writeDemos new keys p) i o := by
  obtain ⟨h1, h2, h3, h4⟩ := writeDemos_segments new keys p
  obtain ⟨e, he, hobj⟩ := h
  exact ⟨e, by rw [itemAtIndex_congr _ _ _ h1 h2 h3 h4]; exact he, hobj⟩

theorem fold_demo_pres (new : Int) (k : String) :
    ∀ (keys : List String) (p : AIProgram),
      alGet p.demo k = some (.int new) →
      alGet ((keys.foldl
        (fun q key => { q with demo := alSet q.demo key (.int new) }) p)).demo k
        = some (.int new) := by
  intro keys
  induction keys with
  | nil => intro p h; exact h
  | cons hd tl ih =>
    intro p h
    rw [List.foldl_cons]
    refine ih _ ?_
    by_cases h2 : k = hd
    · subst h2
      exact alGet_alSet_self ..
    · show alGet (alSet p.demo hd (Param.int new)) k = some (Param.int new)
      rw [alGet_alSet_other _ _ _ _ h2]
      exact h

theorem alGet_writeDemos_mem (new : Int) (keys : List String) :
    ∀ (p : AIProgram) (k : String), k ∈ keys →
      alGet (writeDemos new keys p).demo k = some (.int new) := by
  induction keys with
  | nil => intro p k h; cases h
  | cons hd tl ih =>
    intro p k hmem
    unfold writeDemos
    rw [List.foldl_cons]
    rcases List.mem_cons.mp hmem with heq | htl
    · subst heq
      refine fold_demo_pres new k tl _ ?_
      exact alGet_alSet_self ..
    · exact ih _ k htl

theorem collectChildRefs_present (idx : Nat) :
    ∀ (es : List (String × Entry)) (s : Nat) (l : List (Nat × String)),
      collectChildRefs idx s es = some l →
      ∀ ik ∈ l, s ≤ ik.1 ∧ ik.1 - s < es.length ∧
        ∃ kv, es[ik.1 - s]? = some kv ∧ (alGet kv.2.objects "ChildIdx").isSome := by
  intro es
  induction es with
  | nil =>
    intro s l h ik hmem
    simp only [collectChildRefs, Option.some.injEq] at h
    subst h
    cases hmem
  | cons hd tl ih =>
    intro s l h ik hmem
    obtain ⟨k0, e0⟩ := hd
    simp only [collectChildRefs] at h
    cases hobj : alGet e0.objects "ChildIdx" with
    | none => rw [hobj] at h; cases h
    | some o =>
      rw [hobj] at h
      cases hrec : collectChildRefs idx (s + 1) tl with
      | none => rw [hrec] at h; cases h
      | some l2 =>
        rw [hrec] at h
        simp only [Option.some.injEq] at h
        subst h
        rcases List.mem_append.mp hmem with hpre | htl2
        · cases hlast : lastMatchKey o.params idx with
          | none => rw [hlast] at hpre; cases hpre
          | some kk =>
            rw [hlast] at hpre
            simp only [List.mem_singleton] at hpre
            subst hpre
            refine ⟨Nat.le_refl s, by simp, ⟨(k0, e0), ?_, by simp [hobj]⟩⟩
            simp
        · obtain ⟨hle, hlt, kv, hget, hobj2⟩ := ih (s + 1) l2 hrec ik htl2
          refine ⟨by omega, by simp; omega, kv, ?_, hobj2⟩
          have hidx : ik.1 - s = (ik.1 - (s + 1)) + 1 := by omega
          rw [hidx, List.getElem?_cons_succ]
          exact hget

theorem collectBehRefs_present (idx : Nat) :
    ∀ (es : List (String × Entry)) (s : Nat),
      ∀ ik ∈ collectBehRefs idx s es, s ≤ ik.1 ∧ ik.1 - s < es.length ∧
        ∃ kv, es[ik.1 - s]? = some kv ∧ (alGet kv.2.objects "BehaviorIdx").isSome := by
  intro es
  induction es with
  | nil =>
    intro s ik hmem
    cases hmem
  | cons hd tl ih =>
    intro s ik hmem
    obtain ⟨k0, e0⟩ := hd
    simp only [collectBehRefs] at hmem
    rcases List.mem_append.mp hmem with hpre | htl2
    · cases hobj : alGet e0.objects "BehaviorIdx" with
      | none => rw [hobj] at hpre; cases hpre
      | some o =>
        rw [hobj] at hpre
        dsimp only at hpre
        cases hlast : lastMatchKey o.params idx with
        | none => rw [hlast] at hpre; cases hpre
        | some kk =>
          rw [hlast] at hpre
          simp only [List.mem_singleton] at hpre
          subst hpre
          refine ⟨Nat.le_refl s, by simp, ⟨(k0, e0), ?_, by simp [hobj]⟩⟩
          simp
    · obtain ⟨hle, hlt, kv, hget, hobj2⟩ := ih (s + 1) ik htl2
      refine ⟨by omega, by simp; omega, kv, ?_, hobj2⟩
      have hidx : ik.1 - s = (ik.1 - (s + 1)) + 1 := by omega
      rw [hidx, List.getElem?_cons_succ]
      exact hget

theorem objPresent_of_ai (p : AIProgram) (i : Nat) (kv : String × Entry) (o : String)
    (h1 : i < p.ais.length) (h2 : p.ais[i]? = some kv)
    (h3 : (alGet kv.2.objects o).isSome) : objPresent p i o := by
  refine ⟨kv.2, ?_, h3⟩
  unfold itemAtIndex actionsOffset
  rw [if_pos h1, h2]
  rfl

theorem objPresent_of_action (p : AIProgram) (i : Nat) (kv : String × Entry) (o : String)
    (h1 : i < p.actions.length) (h2 : p.actions[i]? = some kv)
    (h3 : (alGet kv.2.objects o).isSome) : objPresent p (actionsOffset p + i) o := by
  refine ⟨kv.2, ?_, h3⟩
  unfold itemAtIndex actionsOffset behaviorsOffset
  rw [if_neg (by omega), if_pos (by omega)]
  have hsub : p.ais.length + i - p.ais.length = i := by omega
  rw [hsub, h2]
  rfl

theorem references_components (p : AIProgram) (old : Nat) (refs : References)
    (h : references p old = some refs) :
    refs.demos = (p.demo.filter (fun kv => paramRefs kv.2 old)).map (·.1) ∧
    collectChildRefs old 0 p.ais = some refs.ai_children ∧
    refs.ai_behaviours = collectBehRefs old 0 p.ais ∧
    refs.action_behaviours = collectBehRefs old 0 p.actions := by
  unfold references at h
  cases hc : collectChildRefs old 0 p.ais with
  | none => rw [hc] at h; cases h
  | some children =>
    rw [hc] at h
    simp only [Option.some.injEq] at h
    subst h
    exact ⟨rfl, rfl, rfl, rfl⟩

theorem refs_children_present (p : AIProgram) (old : Nat) (refs : References)
    (h : references p old = some refs) :
    ∀ ik ∈ refs.ai_children, ik.1 < p.ais.length ∧ objPresent p ik.1 "ChildIdx" := by
  intro ik hmem
  obtain ⟨-, hc, -, -⟩ := references_components p old refs h
  obtain ⟨-, hlt, kv, hget, hobj⟩ := collectChildRefs_present old p.ais 0 refs.ai_children hc ik hmem
  rw [Nat.sub_zero] at hlt hget
  exact ⟨hlt, objPresent_of_ai p ik.1 kv _ hlt hget hobj⟩

theorem refs_aibeh_present (p : AIProgram) (old : Nat) (refs : References)
    (h : references p old = some refs) :
    ∀ ik ∈ refs.ai_behaviours, ik.1 < p.ais.length ∧ objPresent p ik.1 "BehaviorIdx" := by
  intro ik hmem
  obtain ⟨-, -, hb, -⟩ := references_components p old refs h
  rw [hb] at hmem
  obtain ⟨-, hlt, kv, hget, hobj⟩ := collectBehRefs_present old p.ais 0 ik hmem
  rw [Nat.sub_zero] at hlt hget
  exact ⟨hlt, objPresent_of_ai p ik.1 kv _ hlt hget hobj⟩

theorem refs_actbeh_present (p : AIProgram) (old : Nat) (refs : References)
    (h : references p old = some refs) :
    ∀ ik ∈ refs.action_behaviours,
      ik.1 < p.actions.length ∧ objPresent p (actionsOffset p + ik.1) "BehaviorIdx" := by
  intro ik hmem
  obtain ⟨-, -, -, hb⟩ := references_components p old refs h
  rw [hb] at hmem
  obtain ⟨-, hlt, kv, hget, hobj⟩ := collectBehRefs_present old p.actions 0 ik hmem
  rw [Nat.sub_zero] at hlt hget
  exact ⟨hlt, objPresent_of_action p ik.1 kv _ hlt hget hobj⟩

theorem offsets_of_segLens (p q : AIProgram) (h : segLens q = segLens p) :
    actionsOffset q = actionsOffset p ∧ behaviorsOffset q = behaviorsOffset p ∧
    queriesOffset q = queriesOffset p ∧ lenP q = lenP p := by
  simp only [segLens, Prod.mk.injEq] at h
  obtain ⟨h1, h2, h3, h4⟩ := h
  unfold actionsOffset behaviorsOffset queriesOffset lenP
  omega

theorem writeChildren_demo (new : Int) (locs : List (Nat × String)) (q : AIProgram) :
    (writeChildren new locs q).demo = q.demo := by
  unfold writeChildren
  exact fold_demo "ChildIdx" (.int new) (fun ik => ik.1) locs q

theorem writeAIBehaviours_demo (new : Int) (locs : List (Nat × String)) (q : AIProgram) :
    (writeAIBehaviours new locs q).demo = q.demo := by
  unfold writeAIBehaviours
  split
  · rfl
  · dsimp only
    exact fold_demo "BehaviorIdx" _ (fun ik => ik.1) locs q

theorem writeActionBehaviours_demo (new : Int) (locs : List (Nat × String)) (q : AIProgram) :
    (writeActionBehaviours new locs q).demo = q.demo := by
  unfold writeActionBehaviours
  split
  · rfl
  · dsimp only
    exact fold_demo "BehaviorIdx" _ (fun ik => actionsOffset q + ik.1) locs q

theorem objPresent_writeChildren (new : Int) (locs : List (Nat × String)) (q : AIProgram)
    (j : Nat) (o' : String) (h : objPresent q j o') :
    objPresent (writeChildren new locs q) j o' := by
  unfold writeChildren
  exact fold_objPresent "ChildIdx" (.int new) (fun ik => ik.1) locs j o' q h

theorem objPresent_writeAIBehaviours (new : Int) (locs : List (Nat × String)) (q : AIProgram)
    (j : Nat) (o' : String) (h : objPresent q j o') :
    objPresent (writeAIBehaviours new locs q) j o' := by
  unfold writeAIBehaviours
  split
  · exact h
  · dsimp only
    exact fold_objPresent "BehaviorIdx" _ (fun ik => ik.1) locs j o' q h

theorem getObjParam_writeAIBehaviours_other (new : Int) (locs : List (Nat × String))
    (q : AIProgram) (j : Nat) (o' k' : String) (ho : o' ≠ "BehaviorIdx") :
    getObjParam (writeAIBehaviours new locs q) j o' k' = getObjParam q j o' k' := by
  unfold writeAIBehaviours
  split
  · rfl
  · dsimp only
    exact fold_obj_other "BehaviorIdx" _ (fun ik => ik.1) locs j o' k' ho q

theorem getObjParam_writeActionBehaviours_other (new : Int) (locs : List (Nat × String))
    (q : AIProgram) (j : Nat) (o' k' : String) (ho : o' ≠ "BehaviorIdx") :
    getObjParam (writeActionBehaviours new locs q) j o' k' = getObjParam q j o' k' := by
  unfold writeActionBehaviours
  split
  · rfl
  · dsimp only
    exact fold_obj_other "BehaviorIdx" _ (fun ik => actionsOffset q + ik.1) locs j o' k' ho q

theorem updateIndexes_locationwise (p : AIProgram) (old : Nat) (new : Int)
    (refs : References) (h : references p old = some refs) :
    (updateIndexes p old new).2 = none ∧
    (∀ k ∈ refs.demos, alGet (updateIndexes p old new).1.demo k = some (.int new)) ∧
    (∀ ik ∈ refs.ai_children,
      getObjParam (updateIndexes p old new).1 ik.1 "ChildIdx" ik.2 = some (.int new)) ∧
    (∀ ik ∈ refs.ai_behaviours,
      getObjParam (updateIndexes p old new).1 ik.1 "BehaviorIdx" ik.2 =
        some (.int (if 0 < new then new - (behaviorsOffset p : Int) else new))) ∧
    (∀ ik ∈ refs.action_behaviours,
      getObjParam (updateIndexes p old new).1 (actionsOffset p + ik.1) "BehaviorIdx" ik.2 =
        some (.int (if 0 < new then new - (behaviorsOffset p : Int) else new))) := by
  have hu : updateIndexes p old new =
      (writeActionBehaviours new refs.action_behaviours
        (writeAIBehaviours new refs.ai_behaviours
          (writeChildren new refs.ai_children (writeDemos new refs.demos p))), none) := by
    unfold updateIndexes
    rw [h]
  rw [hu]
  have hs1 : segLens (writeDemos new refs.demos p) = segLens p :=
    segLens_writeDemos new refs.demos p
  have hs2 : segLens (writeChildren new refs.ai_children (writeDemos new refs.demos p))
      = segLens p :=
    (segLens_writeChildren new refs.ai_children _).trans hs1
  have hs3 : segLens (writeAIBehaviours new refs.ai_behaviours
        (writeChildren new refs.ai_children (writeDemos new refs.demos p)))
      = segLens p :=
    (segLens_writeAIBehaviours new refs.ai_behaviours _).trans hs2
  have hb2 := (offsets_of_segLens p _ hs2).2.1
  have ha3 := (offsets_of_segLens p _ hs3).1
  have hb3 := (offsets_of_segLens p _ hs3).2.1
  refine ⟨rfl, ?_, ?_, ?_, ?_⟩
  · intro k hk
    rw [writeActionBehaviours_demo, writeAIBehaviours_demo, writeChildren_demo]
    exact alGet_writeDemos_mem new refs.demos p k hk
  · intro ik hm
    rw [getObjParam_writeActionBehaviours_other _ _ _ _ _ _ (by decide),
      getObjParam_writeAIBehaviours_other _ _ _ _ _ _ (by decide)]
    have hpres : ∀ ik ∈ refs.ai_children,
        objPresent (writeDemos new refs.demos p) ik.1 "ChildIdx" := fun ik hm =>
      objPresent_writeDemos new refs.demos p ik.1 "ChildIdx"
        ((refs_children_present p old refs h ik hm).2)
    unfold writeChildren
    exact fold_obj_est "ChildIdx" (.int new) (fun ik => ik.1) refs.ai_children _ hpres ik hm
  · intro ik hm
    have hpres : ∀ ik ∈ refs.ai_behaviours,
        objPresent (writeChildren new refs.ai_children (writeDemos new refs.demos p))
          ik.1 "BehaviorIdx" := fun ik hm =>
      objPresent_writeChildren new refs.ai_children _ ik.1 "BehaviorIdx"
        (objPresent_writeDemos new refs.demos p ik.1 "BehaviorIdx"
          ((refs_aibeh_present p old refs h ik hm).2))
    have hne : refs.ai_behaviours.isEmpty = false := by
      cases hl : refs.ai_behaviours with
      | nil => rw [hl] at hm; cases hm
      | cons a b => rfl
    have hest : getObjParam (writeAIBehaviours new refs.ai_behaviours
          (writeChildren new refs.ai_children (writeDemos new refs.demos p)))
        ik.1 "BehaviorIdx" ik.2 =
        some (.int (if 0 < new then new - (behaviorsOffset p : Int) else new)) := by
      unfold writeAIBehaviours
      rw [if_neg (by simp [hne])]
      dsimp only
      rw [hb2]
      exact fold_obj_est "BehaviorIdx" _ (fun ik => ik.1) refs.ai_behaviours _ hpres ik hm
    unfold writeActionBehaviours
    split
    · exact hest
    · dsimp only
      rw [hb3, ha3]
      exact fold_obj_pres_value "BehaviorIdx" _ (fun ik => actionsOffset p + ik.1)
        refs.action_behaviours ik.1 "BehaviorIdx" ik.2 _ hest
  · intro ik hm
    have hpres : ∀ ik ∈ refs.action_behaviours,
        objPresent (writeAIBehaviours new refs.ai_behaviours
            (writeChildren new refs.ai_children (writeDemos new refs.demos p)))
          (actionsOffset p + ik.1) "BehaviorIdx" := fun ik hm =>
      objPresent_writeAIBehaviours new refs.ai_behaviours _ _ "BehaviorIdx"
        (objPresent_writeChildren new refs.ai_children _ _ "BehaviorIdx"
          (objPresent_writeDemos new refs.demos p _ "BehaviorIdx"
            ((refs_actbeh_present p old refs h ik hm).2)))
    have hne : refs.action_behaviours.isEmpty = false := by
      cases hl : refs.action_behaviours with
      | nil => rw [hl] at hm; cases hm
      | cons a b => rfl
    unfold writeActionBehaviours
    rw [if_neg (by simp [hne])]
    dsimp only
    rw [hb3, ha3]
    exact fold_obj_est "BehaviorIdx" _ (fun ik => actionsOffset p + ik.1)
      refs.action_behaviours _ hpres ik hm

/-! ## Root correctness -/

theorem lastMatchKey_eq_none_iff (ps : List (String × Param)) (idx : Nat) :
    lastMatchKey ps idx = none ↔ ps.any (fun kp => paramRefs kp.2 idx) = false := by
  unfold lastMatchKey
  rw [List.getLast?_eq_none_iff]
  simp [List.filter_eq_nil_iff]

theorem collectChildRefs_empty (idx : Nat) :
    ∀ (es : List (String × Entry)) (s : Nat) (l : List (Nat × String)),
      collectChildRefs idx s es = some l →
      l.isEmpty = !(es.any (fun kv =>
        match alGet kv.2.objects "ChildIdx" with
        | some o => o.params.any (fun kp => paramRefs kp.2 idx)
        | none => false)) := by
  intro es
  induction es with
  | nil =>
    intro s l h
    simp only [collectChildRefs, Option.some.injEq] at h
    subst h
    rfl
  | cons hd tl ih =>
    intro s l h
    obtain ⟨k0, e0⟩ := hd
    simp only [collectChildRefs] at h
    cases hobj : alGet e0.objects "ChildIdx" with
    | none => rw [hobj] at h; cases h
    | some o =>
      rw [hobj] at h
      cases hrec : collectChildRefs idx (s + 1) tl with
      | none => rw [hrec] at h; cases h
      | some l2 =>
        rw [hrec] at h
        simp only [Option.some.injEq] at h
        subst h
        cases hlast : lastMatchKey o.params idx with
        | none =>
          have hany := (lastMatchKey_eq_none_iff o.params idx).mp hlast
          simp only [List.any_cons, hobj, hany, Bool.false_or, List.nil_append]
          exact ih (s + 1) l2 hrec
        | some kk =>
          have hany : o.params.any (fun kp => paramRefs kp.2 idx) = true := by
            by_contra hx
            rw [(lastMatchKey_eq_none_iff o.params idx).mpr
              (Bool.eq_false_iff.mpr hx)] at hlast
            cases hlast
          simp [hobj, hany]

theorem roots_fold (p : AIProgram) (h : wfAIs p = true) :
    ∀ L : List Nat,
      L.foldr (fun i acc =>
        match references p i, acc with
        | none, _ => none
        | some _, none => none
        | some refs, some l => some (if refs.ai_children.isEmpty then i :: l else l))
        (some []) = some (L.filter (fun i => !(isChildTarget p i))) := by
  intro L
  induction L with
  | nil => rfl
  | cons i L ih =>
    rw [List.foldr_cons, ih]
    have hsome : (references p i).isSome = true := (references_isSome_iff p i).mpr h
    cases href : references p i with
    | none => rw [href] at hsome; cases hsome
    | some refs =>
      dsimp only
      have hemp : refs.ai_children.isEmpty = !(isChildTarget p i) := by
        obtain ⟨-, hc, -, -⟩ := references_components p i refs href
        exact collectChildRefs_empty i p.ais 0 refs.ai_children hc
      rw [List.filter_cons, hemp]

/-! ## Failure atomicity of the mutation loops -/

theorem foldl_stop {β : Type} (step : AIProgram → β → AIProgram × Option MutErr) :
    ∀ (L : List β) (acc : AIProgram × Option MutErr) (e : MutErr), acc.2 = some e →
      L.foldl (fun acc i => match acc.2 with | some _ => acc | none => step acc.1 i) acc
        = acc := by
  intro L
  induction L with
  | nil => intro acc e h; rfl
  | cons i L ih =>
    intro acc e h
    rw [List.foldl_cons]
    have hacc : (match acc.2 with | some _ => acc | none => step acc.1 i) = acc := by
      rw [h]
    rw [hacc]
    exact ih acc e h

theorem shiftDown_ok : ∀ (L : List Nat) (q : AIProgram), wfAIs q = true →
    (shiftDown L q).2 = none ∧ wfAIs (shiftDown L q).1 = true := by
  intro L
  induction L with
  | nil => intro q hq; exact ⟨rfl, hq⟩
  | cons i L ih =>
    intro q hq
    unfold shiftDown
    rw [List.foldl_cons]
    dsimp only
    have hsnd := (updateIndexes_snd_none_iff q i ((i : Int) - 1)).mpr hq
    have heta : updateIndexes q i ((i : Int) - 1)
        = ((updateIndexes q i ((i : Int) - 1)).1, none) := by
      rw [← hsnd]
    rw [heta]
    have hwf1 : wfAIs (updateIndexes q i ((i : Int) - 1)).1 = true := by
      rw [updateIndexes_wfAIs]; exact hq
    exact ih _ hwf1

theorem shiftUp_ok : ∀ (L : List Nat) (q : AIProgram), wfAIs q = true →
    (shiftUp L q).2 = none ∧ wfAIs (shiftUp L q).1 = true := by
  intro L
  induction L with
  | nil => intro q hq; exact ⟨rfl, hq⟩
  | cons i L ih =>
    intro q hq
    unfold shiftUp
    rw [List.foldl_cons]
    dsimp only
    have hsnd := (updateIndexes_snd_none_iff q i ((i : Int) + 1)).mpr hq
    have heta : updateIndexes q i ((i : Int) + 1)
        = ((updateIndexes q i ((i : Int) + 1)).1, none) := by
      rw [← hsnd]
    rw [heta]
    have hwf1 : wfAIs (updateIndexes q i ((i : Int) + 1)).1 = true := by
      rw [updateIndexes_wfAIs]; exact hq
    exact ih _ hwf1

theorem shiftUp_fst_of_err (L : List Nat) (p : AIProgram) (e : MutErr)
    (h : (shiftUp L p).2 = some e) : (shiftUp L p).1 = p := by
  by_cases hwf : wfAIs p = true
  · rw [(shiftUp_ok L p hwf).1] at h
    cases h
  · cases L with
    | nil => rfl
    | cons i L =>
      unfold shiftUp at h ⊢
      rw [List.foldl_cons] at h ⊢
      dsimp only at h ⊢
      have hsnd : (updateIndexes p i ((i : Int) + 1)).2 = some (.err "Invalid AI") := by
        unfold updateIndexes
        cases href : references p i with
        | none => rfl
        | some refs =>
          exfalso
          exact hwf ((references_isSome_iff p i).mp (by rw [href]; rfl))
      have hfst := updateIndexes_fst_of_err p i ((i : Int) + 1) _ hsnd
      have heta : updateIndexes p i ((i : Int) + 1) = (p, some (.err "Invalid AI")) := by
        have hpair : updateIndexes p i ((i : Int) + 1)
            = ((updateIndexes p i ((i : Int) + 1)).1, (updateIndexes p i ((i : Int) + 1)).2) :=
          rfl
        rw [hpair, hfst, hsnd]
      rw [heta] at h ⊢
      rw [foldl_stop (fun q i => updateIndexes q i ((i : Int) + 1)) L _ _ rfl]

theorem wfAIs_eraseIdx (q : AIProgram) (i : Nat) (h : wfAIs q = true) :
    wfAIs { q with ais := q.ais.eraseIdx i } = true := by
  unfold wfAIs at *
  rw [List.all_eq_true] at *
  intro kv hkv
  exact h kv ((List.eraseIdx_sublist q.ais i).subset hkv)

theorem updateIndexes_err_of_not_wf (p : AIProgram) (old : Nat) (new : Int)
    (hwf : ¬ wfAIs p = true) :
    (updateIndexes p old new).2 = some (.err "Invalid AI") := by
  unfold updateIndexes
  cases href : references p old with
  | none => rfl
  | some refs =>
    exfalso
    exact hwf ((references_isSome_iff p old).mp (by rw [href]; rfl))

theorem removeAt_wf (p1 : AIProgram) (idx : Nat) (h : wfAIs p1 = true) :
    wfAIs (removeAt p1 idx).1 = true := by
  unfold removeAt
  split
  · exact wfAIs_eraseIdx p1 idx h
  · split
    · exact h
    · split
      · exact h
      · exact h

theorem deleteTail_snd_none (idx : Nat) (step2 : AIProgram × String)
    (h : wfAIs step2.1 = true) : (deleteTail idx step2).2 = none := by
  unfold deleteTail
  have hs := (shiftDown_ok (List.range' idx (lenP step2.1 - idx)) step2.1 h).1
  cases hsd : shiftDown (List.range' idx (lenP step2.1 - idx)) step2.1 with
  | mk p3 e2 =>
    rw [hsd] at hs
    cases e2 with
    | some e => simp at hs
    | none => rfl

theorem deleteEntry_unchanged_on_err (p : AIProgram) (idx : Nat) (e : MutErr)
    (h : (deleteEntry p idx).2 = some e) : (deleteEntry p idx).1 = p := by
  unfold deleteEntry at h ⊢
  by_cases hwf : wfAIs p = true
  · exfalso
    have hsnd := (updateIndexes_snd_none_iff p idx (-1)).mpr hwf
    have heta : updateIndexes p idx (-1) = ((updateIndexes p idx (-1)).1, none) := by
      rw [← hsnd]
    rw [heta] at h
    dsimp only at h
    have hwf1 : wfAIs (updateIndexes p idx (-1)).1 = true := by
      rw [updateIndexes_wfAIs]; exact hwf
    rw [deleteTail_snd_none idx _ (removeAt_wf _ idx hwf1)] at h
    cases h
  · have hsnd := updateIndexes_err_of_not_wf p idx (-1) hwf
    have hfst := updateIndexes_fst_of_err p idx (-1) _ hsnd
    have heta : updateIndexes p idx (-1) = (p, some (.err "Invalid AI")) := by
      have hpair : updateIndexes p idx (-1)
          = ((updateIndexes p idx (-1)).1, (updateIndexes p idx (-1)).2) := rfl
      rw [hpair, hfst, hsnd]
    rw [heta]

theorem addEntry_unchanged_on_err (defs : AIDefs) (p : AIProgram) (cat : Category)
    (cls : String) (e : MutErr) (h : (addEntry defs p cat cls).2 = .error e) :
    (addEntry defs p cat cls).1 = p := by
  unfold addEntry at h ⊢
  cases hb : blank_ai defs cat cls with
  | none =>
    rw [hb] at h
  | some entry =>
    rw [hb] at h
    cases cat with
    | ai =>
      cases hsu : shiftUp ((List.range' (actionsOffset p) (lenP p - actionsOffset p)).reverse) p with
      | mk p1 e2 =>
        rw [hsu] at h
        cases e2 with
        | some e0 =>
          have hfst := shiftUp_fst_of_err
            ((List.range' (actionsOffset p) (lenP p - actionsOffset p)).reverse) p e0
            (by rw [hsu])
          rw [hsu] at hfst
          exact hfst
        | none => simp at h
    | action =>
      cases hsu : shiftUp ((List.range' (behaviorsOffset p) (lenP p - behaviorsOffset p)).reverse) p with
      | mk p1 e2 =>
        rw [hsu] at h
        cases e2 with
        | some e0 =>
          have hfst := shiftUp_fst_of_err
            ((List.range' (behaviorsOffset p) (lenP p - behaviorsOffset p)).reverse) p e0
            (by rw [hsu])
          rw [hsu] at hfst
          exact hfst
        | none => simp at h
    | behaviour =>
      cases hsu : shiftUp ((List.range' (queriesOffset p) (lenP p - queriesOffset p)).reverse) p with
      | mk p1 e2 =>
        rw [hsu] at h
        cases e2 with
        | some e0 =>
          have hfst := shiftUp_fst_of_err
            ((List.range' (queriesOffset p) (lenP p - queriesOffset p)).reverse) p e0
            (by rw [hsu])
          rw [hsu] at hfst
          exact hfst
        | none => simp at h
    | query => simp at h

/-! ## Renumbering after deletion -/

/-- Segment lookup by the name string used in `delete_entry`'s
renumbering pass. -/
def segListByName (p : AIProgram) (sName : String) : List (String × Entry) :=
  if sName = "AI" then p.ais
  else if sName = "Action" then p.actions
  else if sName = "Behavior" then p.behaviors
  else p.queries

theorem renumber_keys_from (cat : String) :
    ∀ (l : List (String × Entry)) (n : Nat),
      ((l.enumFrom n).map (fun ie => (cat ++ "_" ++ toString ie.1, ie.2.2))).map (·.1)
        = (List.range' n l.length).map (fun i => cat ++ "_" ++ toString i) := by
  intro l
  induction l with
  | nil => intro n; rfl
  | cons hd tl ih =>
    intro n
    simp only [List.enumFrom, List.length_cons, List.range', List.map_cons,
      List.cons.injEq, true_and]
    exact ih (n + 1)

theorem renumber_keys (cat : String) (l : List (String × Entry)) :
    (renumber cat l).map (·.1)
      = (List.range l.length).map (fun i => cat ++ "_" ++ toString i) := by
  unfold renumber
  rw [List.range_eq_range']
  exact renumber_keys_from cat l 0

theorem renumber_length (cat : String) (l : List (String × Entry)) :
    (renumber cat l).length = l.length := by
  simp [renumber]

theorem removeAt_snd_congr (p q : AIProgram) (idx : Nat) (h : segLens q = segLens p) :
    (removeAt q idx).2 = (removeAt p idx).2 := by
  obtain ⟨h1, h2, h3, -⟩ := offsets_of_segLens p q h
  by_cases c1 : idx < actionsOffset p
  · simp [removeAt, h1, c1]
  · by_cases c2 : idx < behaviorsOffset p
    · simp [removeAt, h1, h2, c1, c2]
    · by_cases c3 : idx < queriesOffset p
      · simp [removeAt, h1, h2, h3, c1, c2, c3]
      · simp [removeAt, h1, h2, h3, c1, c2, c3]

theorem removeAt_snd_cases (p : AIProgram) (idx : Nat) :
    (removeAt p idx).2 = "AI" ∨ (removeAt p idx).2 = "Action" ∨
    (removeAt p idx).2 = "Behavior" ∨ (removeAt p idx).2 = "Query" := by
  unfold removeAt
  split
  · exact Or.inl rfl
  · split
    · exact Or.inr (Or.inl rfl)
    · split
      · exact Or.inr (Or.inr (Or.inl rfl))
      · exact Or.inr (Or.inr (Or.inr rfl))

theorem segListByName_renumberSeg_AI (p3 : AIProgram) :
    segListByName (renumberSeg "AI" p3) "AI" = renumber "AI" p3.ais := by
  simp [segListByName, renumberSeg]

theorem segListByName_renumberSeg_Action (p3 : AIProgram) :
    segListByName (renumberSeg "Action" p3) "Action" = renumber "Action" p3.actions := by
  simp [segListByName, renumberSeg]

theorem segListByName_renumberSeg_Behavior (p3 : AIProgram) :
    segListByName (renumberSeg "Behavior" p3) "Behavior" = renumber "Behavior" p3.behaviors := by
  simp [segListByName, renumberSeg]

theorem segListByName_renumberSeg_Query (p3 : AIProgram) :
    segListByName (renumberSeg "Query" p3) "Query" = renumber "Query" p3.queries := by
  simp [segListByName, renumberSeg]

theorem deleteEntry_renumbered (p : AIProgram) (idx : Nat)
    (hok : (deleteEntry p idx).2 = none) :
    (segListByName (deleteEntry p idx).1 (removeAt p idx).2).map (·.1)
      = (List.range
          (segListByName (deleteEntry p idx).1 (removeAt p idx).2).length).map
          (fun i => (removeAt p idx).2 ++ "_" ++ toString i) := by
  by_cases hwf : wfAIs p = true
  · have hsnd := (updateIndexes_snd_none_iff p idx (-1)).mpr hwf
    have heta : updateIndexes p idx (-1) = ((updateIndexes p idx (-1)).1, none) := by
      rw [← hsnd]
    have hwf1 : wfAIs (updateIndexes p idx (-1)).1 = true := by
      rw [updateIndexes_wfAIs]; exact hwf
    have hdel : deleteEntry p idx
        = deleteTail idx (removeAt (updateIndexes p idx (-1)).1 idx) := by
      unfold deleteEntry
      rw [heta]
    rw [hdel]
    have hseg : segLens (updateIndexes p idx (-1)).1 = segLens p :=
      updateIndexes_segLens p idx (-1)
    have hcat : (removeAt (updateIndexes p idx (-1)).1 idx).2 = (removeAt p idx).2 :=
      removeAt_snd_congr p _ idx hseg
    have hwf2 : wfAIs (removeAt (updateIndexes p idx (-1)).1 idx).1 = true :=
      removeAt_wf _ idx hwf1
    unfold deleteTail
    have hs := (shiftDown_ok
      (List.range' idx (lenP (removeAt (updateIndexes p idx (-1)).1 idx).1 - idx))
      (removeAt (updateIndexes p idx (-1)).1 idx).1 hwf2).1
    cases hsd : shiftDown
        (List.range' idx (lenP (removeAt (updateIndexes p idx (-1)).1 idx).1 - idx))
        (removeAt (updateIndexes p idx (-1)).1 idx).1 with
    | mk p3 e2 =>
      rw [hsd] at hs
      cases e2 with
      | some e => simp at hs
      | none =>
        dsimp only
        rw [hcat]
        rcases removeAt_snd_cases p idx with h4 | h4 | h4 | h4 <;> rw [h4]
        · rw [segListByName_renumberSeg_AI, renumber_keys, renumber_length]
        · rw [segListByName_renumberSeg_Action, renumber_keys, renumber_length]
        · rw [segListByName_renumberSeg_Behavior, renumber_keys, renumber_length]
        · rw [segListByName_renumberSeg_Query, renumber_keys, renumber_length]
  · exfalso
    have hsnd := updateIndexes_err_of_not_wf p idx (-1) hwf
    unfold deleteEntry at hok
    have heta : updateIndexes p idx (-1)
        = ((updateIndexes p idx (-1)).1, some (.err "Invalid AI")) := by
      rw [← hsnd]
    rw [heta] at hok
    dsimp only at hok
    cases hok

/-! ## `update_names` against the specification's recursion scheme -/

theorem foldl_stop2 {β : Type}
    (rest : AIProgram × Option MutErr → β → AIProgram × Option MutErr) :
    ∀ (L : List β) (q : AIProgram) (e : MutErr),
      L.foldl (fun acc b => match acc.2 with | some _ => acc | none => rest acc b)
        (q, some e) = (q, some e) := by
  intro L
  induction L with
  | nil => intro q e; rfl
  | cons hd tl ih => intro q e; exact ih q e

theorem spec_fold_eq (f : Nat) (c : String)
    (IH : ∀ (q : AIProgram) (i : Nat) (ch pa : String),
      (updateNames f q i ch pa).2 = none →
      updateNamesSpec f q i ch pa = updateNames f q i ch pa) :
    ∀ (slots : List (String × Param)) (ups : List (Nat × String))
      (acc : AIProgram × Option MutErr),
      collectUpdates slots = some ups →
      (ups.foldl (fun acc iu =>
        match acc.2 with
        | some _ => acc
        | none => updateNames f acc.1 iu.1 iu.2 c) acc).2 = none →
      slots.foldl (fun acc kv =>
        match acc.2 with
        | some _ => acc
        | none =>
          if kv.2 = Param.int (-1) then acc
          else
            match kv.2.asInt with
            | none => (acc.1, some (.err "invalid child index"))
            | some j => updateNamesSpec f acc.1 (usizeCast j) (try_name kv.1) c) acc
      = ups.foldl (fun acc iu =>
        match acc.2 with
        | some _ => acc
        | none => updateNames f acc.1 iu.1 iu.2 c) acc := by
  intro slots
  induction slots with
  | nil =>
    intro ups acc hcol hsucc
    simp only [collectUpdates, Option.some.injEq] at hcol
    subst hcol
    rfl
  | cons hd tl ih =>
    intro ups acc hcol hsucc
    obtain ⟨k, v⟩ := hd
    obtain ⟨q, e?⟩ := acc
    cases e? with
    | some e =>
      exfalso
      rw [foldl_stop2 (fun acc iu => updateNames f acc.1 iu.1 iu.2 c) ups q e] at hsucc
      cases hsucc
    | none =>
      simp only [collectUpdates] at hcol
      by_cases hv : v = Param.int (-1)
      · rw [if_pos hv] at hcol
        rw [List.foldl_cons]
        dsimp only
        rw [if_pos hv]
        exact ih ups (q, none) hcol hsucc
      · rw [if_neg hv] at hcol
        cases hjv : v.asInt with
        | none => rw [hjv] at hcol; cases hcol
        | some j =>
          rw [hjv] at hcol
          cases hcol2 : collectUpdates tl with
          | none => rw [hcol2] at hcol; cases hcol
          | some ups2 =>
            rw [hcol2] at hcol
            simp only [Option.map_some', Option.some.injEq] at hcol
            subst hcol
            rw [List.foldl_cons] at hsucc ⊢
            dsimp only at hsucc ⊢
            have hr : (updateNames f q (usizeCast j) (try_name k) c).2 = none := by
              cases hre : (updateNames f q (usizeCast j) (try_name k) c).2 with
              | none => rfl
              | some e =>
                exfalso
                have heta : updateNames f q (usizeCast j) (try_name k) c
                    = ((updateNames f q (usizeCast j) (try_name k) c).1, some e) := by
                  rw [← hre]
                rw [heta, foldl_stop2 (fun acc iu => updateNames f acc.1 iu.1 iu.2 c)
                  ups2 _ e] at hsucc
                cases hsucc
            rw [if_neg hv, hjv]
            dsimp only
            rw [IH q (usizeCast j) (try_name k) c hr]
            exact ih ups2 _ hcol2 hsucc

theorem updateNamesSpec_eq_updateNames :
    ∀ (fuel : Nat) (p : AIProgram) (idx : Nat) (c par : String),
      (updateNames fuel p idx c par).2 = none →
      updateNamesSpec fuel p idx c par = updateNames fuel p idx c par := by
  intro fuel
  induction fuel with
  | zero =>
    intro p idx c par h
    simp [updateNames] at h
  | succ f IH =>
    intro p idx c par h
    unfold updateNames at h
    unfold updateNamesSpec updateNames
    cases hit : itemAtIndex p idx with
    | none => rfl
    | some item =>
      rw [hit] at h
      dsimp only at h ⊢
      cases hdef : alGet item.objects "Def" with
      | none => rfl
      | some d =>
        rw [hdef] at h
        dsimp only at h ⊢
        cases hcol : collectUpdates
            (match alGet item.objects "ChildIdx" with
             | some o => o.params
             | none => []) with
        | none =>
          rw [hcol] at h
          simp at h
        | some ups =>
          rw [hcol] at h
          dsimp only at h
          exact spec_fold_eq f c IH _ ups _ hcol h

/-! ## Claim-level theorems

Concrete containers used as inputs.  Every program below is a valid
loaded container (all four segments and the demo object exist by
construction) and is well formed where the claim needs it (every AI
record carries a `ChildIdx` object unless the input is chosen to
exercise the error path). -/

/-- An AI record carrying only a `ChildIdx` object with the given
slots. -/
def eAI (childs : List (String × Param)) : Entry := ⟨[("ChildIdx", ⟨childs⟩)]⟩

def cexC1 : AIProgram :=
  { ais := [("A", eAI [("c0", .int 1), ("c1", .int 2)]), ("B", eAI []), ("C", eAI [])]
    actions := [], behaviors := [], queries := [], demo := [] }

def cexC2 : AIProgram :=
  { ais := [("A", eAI [("c0", .int 1)]), ("B", eAI []), ("C", eAI [])]
    actions := [], behaviors := [], queries := [], demo := [("d", .int 2)] }

def cexC3 : AIProgram :=
  { ais := [("A", eAI [("c0", .int 1)])]
    actions := [("X", ⟨[]⟩)], behaviors := [], queries := [], demo := [] }

/-- Catalog for the round-trip input: one AI class `"C"` with a single
declared child slot. -/
def defsC3 : AIDefs :=
  { ais := [("C", some ⟨some ["slotX"], none⟩)], actions := [], behaviors := [], querys := [] }

def cexC4 : AIProgram :=
  { ais := [("A", ⟨[("ChildIdx", ⟨[]⟩), ("BehaviorIdx", ⟨[("b", .int 0)]⟩)]⟩)]
    actions := [], behaviors := [("B", ⟨[]⟩)], queries := [], demo := [] }

def cexC5 : AIProgram :=
  { ais := [("A", eAI [])], actions := [("X", ⟨[]⟩), ("Y", ⟨[]⟩)]
    behaviors := [], queries := [], demo := [("d", .int 2)] }

def cexC6 : AIProgram :=
  { ais := [("A", ⟨[("Def", ⟨[("Name", .strRef "A0")]⟩), ("ChildIdx", ⟨[("Foo", .int 1)]⟩)]⟩),
            ("B", ⟨[("Def", ⟨[("Name", .strRef "Bar")]⟩), ("ChildIdx", ⟨[]⟩)]⟩)]
    actions := [], behaviors := [], queries := [], demo := [] }

def exC7 : AIProgram :=
  { ais := [("A", eAI [("s0", .int 1)]), ("B", eAI [("s0", .int (-1))])]
    actions := [], behaviors := [], queries := [], demo := [] }

def cexC8 : AIProgram :=
  { ais := [("A", eAI [])], actions := [("X", ⟨[]⟩)], behaviors := [], queries := [], demo := [] }

def cexC9 : AIProgram :=
  { ais := [("A", ⟨[("Def", ⟨[("Name", .strRef "old")]⟩),
                   ("ChildIdx", ⟨[("k", .strRef "oops")]⟩)]⟩)]
    actions := [], behaviors := [], queries := [], demo := [] }

def exC9w : AIProgram :=
  { ais := [("A", ⟨[]⟩)], actions := [], behaviors := [], queries := [], demo := [] }

def exC10 : AIProgram :=
  { ais := [("Alpha", eAI []), ("Beta", eAI [("c", .int 2)]), ("Gamma", eAI [])]
    actions := [("Act", ⟨[]⟩)], behaviors := [], queries := [], demo := [] }

/-- Claim C1 (code bug): after a successful `delete_entry(1)` on the
three-AI container whose first record references global indices 1 and
2, the surviving reference to the old last record still holds 2 while
the total record count is 2 — a non-negative reference equal to (not
below) the new total, dangling past the end.  The ascending shift loop
`(idx..self.len())` stops one short of the old last index, so
references to it are never rewritten. -/
theorem c1_delete_leaves_dangling_reference :
    (deleteEntry cexC1 1).2 = none ∧
    lenP (deleteEntry cexC1 1).1 = 2 ∧
    getObjParam (deleteEntry cexC1 1).1 0 "ChildIdx" "c0" = some (.int (-1)) ∧
    getObjParam (deleteEntry cexC1 1).1 0 "ChildIdx" "c1" = some (.int 2) := by
  refine ⟨by decide, by decide, by decide, by decide⟩

/-- Claim C2 (code bug): `delete_entry(1)` on the AI segment `[A,B,C]`
with `A.ChildIdx.c0 = 1` and a demo reference holding old index 2 does
remove B order-preservingly and does clear `c0` to `-1`, but the demo
reference that held old index 2 keeps holding 2 instead of being
rewritten to 1: the loop runs `update_indexes(i, i-1)` for `i` in
`[idx, new total)` and never touches references to the old last
index, unlike the specification's `Reindex(i+1, i)` scheme. -/
theorem c2_delete_misses_last_index_shift :
    (deleteEntry cexC2 1).2 = none ∧
    (deleteEntry cexC2 1).1.ais.map (·.2) = [eAI [("c0", .int (-1))], eAI []] ∧
    getObjParam (deleteEntry cexC2 1).1 0 "ChildIdx" "c0" = some (.int (-1)) ∧
    alGet (deleteEntry cexC2 1).1.demo "d" = some (.int 2) := by
  refine ⟨by decide, by decide, by decide, by decide⟩

/-- Claim C3 (code bug): inserting a new AI at the end of the AI
segment of a one-AI, one-Action container (the add returns global
index 1 and rewrites `A.ChildIdx.c0` from 1 to 2), then deleting that
same record, leaves `c0 = 2` — pointing past the end — instead of
restoring the pre-insert value 1: the delete's shift loop misses
references to the old last global index. -/
theorem c3_insert_delete_roundtrip_not_restored :
    (addEntry defsC3 cexC3 .ai "C").2 = .ok 1 ∧
    getObjParam cexC3 0 "ChildIdx" "c0" = some (.int 1) ∧
    (deleteEntry (addEntry defsC3 cexC3 .ai "C").1 1).2 = none ∧
    getObjParam (deleteEntry (addEntry defsC3 cexC3 .ai "C").1 1).1 0 "ChildIdx" "c0"
      = some (.int 2) := by
  refine ⟨by decide, by decide, by decide, by decide⟩

/-- Claim C4 (code bug): `references` compares the raw stored value of
a `BehaviorIdx` parameter with the target index instead of with
`target - behaviors_offset`.  In a container with one AI (whose
`BehaviorIdx.b = 0` refers, in Behavior-local space, to the Behavior
record at global index 1 = `behaviors_offset + 0`), `references(1)`
reports no behaviour reference at all, while `references(0)` spuriously
reports the slot as referring to global index 0 — an AI record.  The
writer side (`update_indexes`) does translate into Behavior-local
space, so the resolver contradicts it. -/
theorem c4_references_matches_raw_value_not_behavior_local :
    behaviorsOffset cexC4 = 1 ∧
    (references cexC4 1).map References.ai_behaviours = some [] ∧
    (references cexC4 0).map References.ai_behaviours = some [(0, "b")] := by
  refine ⟨by decide, by decide, by decide⟩

/-- Claim C5, counterexample: `update_indexes(2, 5)` on a container
with `actions_offset = 1` and a `DemoAIActionIdx` parameter `d`
holding 2 writes the raw global value 5 into `d`, not the
Action-relative value 4 = 5 - actions_offset claimed by the
specification. -/
theorem c5_counterexample_demo_written_raw :
    (updateIndexes cexC5 2 5).2 = none ∧
    alGet (updateIndexes cexC5 2 5).1.demo "d" = some (.int 5) ∧
    Param.int 5 ≠ Param.int (5 - (1 : Int)) := by
  refine ⟨by decide, by decide, by decide⟩

/-- Claim C5 (amended): `update_indexes(old, new)` overwrites every
location found by the resolver as referencing `old` as follows:
`DemoAIActionIdx` and `ChildIdx` locations receive the raw `new`;
`BehaviorIdx` locations (of AI and of Action records) receive
`new - behaviors_offset` when `new > 0` and the raw `new` otherwise —
in particular every location is set to exactly `-1` when `new = -1`. -/
theorem c5_update_indexes_writes (p : AIProgram) (old : Nat) (new : Int)
    (refs : References) (h : references p old = some refs) :
    (updateIndexes p old new).2 = none ∧
    (∀ k ∈ refs.demos, alGet (updateIndexes p old new).1.demo k = some (.int new)) ∧
    (∀ ik ∈ refs.ai_children,
      getObjParam (updateIndexes p old new).1 ik.1 "ChildIdx" ik.2 = some (.int new)) ∧
    (∀ ik ∈ refs.ai_behaviours,
      getObjParam (updateIndexes p old new).1 ik.1 "BehaviorIdx" ik.2 =
        some (.int (if 0 < new then new - (behaviorsOffset p : Int) else new))) ∧
    (∀ ik ∈ refs.action_behaviours,
      getObjParam (updateIndexes p old new).1 (actionsOffset p + ik.1) "BehaviorIdx" ik.2 =
        some (.int (if 0 < new then new - (behaviorsOffset p : Int) else new))) :=
  updateIndexes_locationwise p old new refs h

/-- Witness for the amended C5 theorem at a concrete input: the demo
parameter `d` of `cexC5` references 2 and is overwritten with the raw
7 by `update_indexes(2, 7)`. -/
theorem c5_witness :
    references cexC5 2 = some ⟨["d"], [], [], []⟩ ∧
    alGet (updateIndexes cexC5 2 7).1.demo "d" = some (.int 7) :=
  ⟨by decide,
   (c5_update_indexes_writes cexC5 2 7 ⟨["d"], [], [], []⟩ (by decide)).2.1 "d"
     (by decide)⟩

/-- Claim C6, counterexample: `update_names(0, "X", "Y")` on a
container where record 0's `ChildIdx` slot is keyed `"Foo"` and points
at record 1, whose own `Def.Name` is `"Bar"`, renames record 1 to
`"Foo"` — the name recovered from the slot key via `try_name` — not to
its own current name `"Bar"` as the claim states. -/
theorem c6_counterexample_child_name_from_slot_key :
    (updateNames 5 cexC6 0 "X" "Y").2 = none ∧
    getObjParam cexC6 1 "Def" "Name" = some (.strRef "Bar") ∧
    getObjParam (updateNames 5 cexC6 0 "X" "Y").1 1 "Def" "Name" = some (.strRef "Foo") ∧
    getObjParam (updateNames 5 cexC6 0 "X" "Y").1 1 "Def" "GroupName" = some (.strRef "X") ∧
    Param.strRef "Foo" ≠ Param.strRef "Bar" := by
  refine ⟨by decide, by decide, by decide, by decide, by decide⟩

/-- Claim C6 (amended): on every successful run, `update_names(idx,
child, parent)` behaves exactly as the recursion scheme that sets the
record's `Def.Name` to `child` and `Def.GroupName` to `parent` and
then, for every slot `(k, v)` of its `ChildIdx` object with `v ≠ -1`
in stored order, recursively calls itself on record `v` with
`try_name k` — the name recovered from the slot's key, not the
referenced record's own `Def.Name` — as the new child name and the
just-set `child` as the new parent name. -/
theorem c6_update_names_recursion (fuel : Nat) (p : AIProgram) (idx : Nat)
    (child parent : String) (h : (updateNames fuel p idx child parent).2 = none) :
    updateNamesSpec fuel p idx child parent = updateNames fuel p idx child parent :=
  updateNamesSpec_eq_updateNames fuel p idx child parent h

/-- Witness for the amended C6 theorem at a concrete input. -/
theorem c6_witness :
    (updateNames 5 cexC6 0 "X" "Y").2 = none ∧
    updateNamesSpec 5 cexC6 0 "X" "Y" = updateNames 5 cexC6 0 "X" "Y" :=
  ⟨by decide, c6_update_names_recursion 5 cexC6 0 "X" "Y" (by decide)⟩

/-- Claim C7: when every AI record carries a `ChildIdx` object (the
container shape `references` requires), `roots()` returns exactly the
AI-segment indices `i` such that no `ChildIdx` parameter of any AI
record currently holds the value `i`, in AI-segment iteration order;
equivalently, an AI that is the target of at least one `ChildIdx`
reference never appears in the result and an AI referenced by no AI's
`ChildIdx` always does. -/
theorem c7_roots_characterization (p : AIProgram) (h : wfAIs p = true) :
    roots p = some ((List.range p.ais.length).filter (fun i => !(isChildTarget p i))) ∧
    ∀ l, roots p = some l →
      ∀ i, i ∈ l ↔ (i < p.ais.length ∧ isChildTarget p i = false) := by
  have h1 : roots p
      = some ((List.range p.ais.length).filter (fun i => !(isChildTarget p i))) := by
    unfold roots
    exact roots_fold p h (List.range p.ais.length)
  refine ⟨h1, ?_⟩
  intro l hl i
  rw [h1] at hl
  injection hl with hl2
  subst hl2
  simp [List.mem_filter, List.mem_range, and_comm]

/-- Witness for C7 at a concrete input: in `exC7`, AI 0 references AI 1
and nothing references AI 0, so the only root is 0. -/
theorem c7_witness :
    wfAIs exC7 = true ∧ roots exC7 = some [0] :=
  ⟨by decide,
   ((c7_roots_characterization exC7 (by decide)).1).trans (by decide)⟩

/-- Claim C8, counterexample: on a two-record container,
`item_at_index(2)` does not surface an `OutOfRange` error to the
caller — the function's return type has no error channel; the final
`unwrap` panics, modelled by `none`. -/
theorem c8_counterexample_out_of_range_panics :
    lenP cexC8 = 2 ∧ itemAtIndex cexC8 2 = none ∧ itemAtIndex cexC8 1 = some ⟨[]⟩ := by
  refine ⟨by decide, by decide, by decide⟩

/-- Claim C8 (amended): `item_at_index(idx)` returns the record at
global index `idx` of the segment concatenation whenever `idx` is
below the total record count, and panics (an `unwrap` of `None`,
modelled by `none`) rather than returning an `OutOfRange` error when
`idx` is at or past the total; the mutable variant resolves the same
position, modifying exactly the record at `idx` of the
concatenation. -/
theorem c8_item_at_index_resolution (p : AIProgram) (idx : Nat) (f : Entry → Entry) :
    itemAtIndex p idx = (allEntries p)[idx]? ∧
    allEntries (setItemAt p idx f) = modAt (allEntries p) idx f :=
  ⟨itemAtIndex_eq_allEntries p idx, allEntries_setItemAt p idx f⟩

/-- Claim C9, counterexample: `update_names(0, "N", "G")` on a
container whose record 0 has a non-integer `ChildIdx` slot value
returns an error, yet the record's `Def.Name` has already been
overwritten: the names are written before the child slots are
validated, so a failed call does not leave the container unchanged. -/
theorem c9_counterexample_update_names_partial_mutation :
    (updateNames 5 cexC9 0 "N" "G").2 = some (.err "invalid child index") ∧
    getObjParam cexC9 0 "Def" "Name" = some (.strRef "old") ∧
    getObjParam (updateNames 5 cexC9 0 "N" "G").1 0 "Def" "Name" = some (.strRef "N") ∧
    (updateNames 5 cexC9 0 "N" "G").1 ≠ cexC9 := by
  refine ⟨by decide, by decide, by decide, by decide⟩

/-- Claim C9 (amended): `update_indexes`, `delete_entry` and
`add_entry` leave the container exactly as it was whenever they return
an error (their only error exit is the reference scan, which precedes
every write); `update_names` does not share this property — it can
return an error after having overwritten `Def.Name`/`Def.GroupName`
(see the counterexample). -/
theorem c9_error_leaves_container_unchanged :
    (∀ (p : AIProgram) (old : Nat) (new : Int) (e : MutErr),
      (updateIndexes p old new).2 = some e → (updateIndexes p old new).1 = p) ∧
    (∀ (p : AIProgram) (idx : Nat) (e : MutErr),
      (deleteEntry p idx).2 = some e → (deleteEntry p idx).1 = p) ∧
    (∀ (defs : AIDefs) (p : AIProgram) (cat : Category) (cls : String) (e : MutErr),
      (addEntry defs p cat cls).2 = .error e → (addEntry defs p cat cls).1 = p) :=
  ⟨fun p old new e h => updateIndexes_fst_of_err p old new e h,
   fun p idx e h => deleteEntry_unchanged_on_err p idx e h,
   fun defs p cat cls e h => addEntry_unchanged_on_err defs p cat cls e h⟩

/-- Witness for the amended C9 theorem at a concrete input: deleting
from a container whose only AI lacks a `ChildIdx` object fails and
leaves the container untouched. -/
theorem c9_witness :
    (deleteEntry exC9w 0).2 = some (.err "Invalid AI") ∧
    (deleteEntry exC9w 0).1 = exC9w :=
  ⟨by decide,
   c9_error_leaves_container_unchanged.2.1 exC9w 0 (.err "Invalid AI") (by decide)⟩

/-- Claim C10: after every successful `delete_entry(idx)` with `idx`
in range, every record of the segment that contained `idx` is keyed by
the (modelled) hash of `"<Segment>_<i>"` where `i` is the record's
post-deletion position — the renumbering pass rebuilds every key of
that segment from positions alone, discarding any original keys. -/
theorem c10_delete_renumbers_segment_keys (p : AIProgram) (idx : Nat)
    (hidx : idx < lenP p) (hok : (deleteEntry p idx).2 = none) :
    (segListByName (deleteEntry p idx).1 (removeAt p idx).2).map (·.1)
      = (List.range
          (segListByName (deleteEntry p idx).1 (removeAt p idx).2).length).map
          (fun i => (removeAt p idx).2 ++ "_" ++ toString i) :=
  deleteEntry_renumbered p idx hok

/-- Witness for C10 at a concrete input: deleting AI 0 of `exC10`
renumbers the AI segment's keys to `AI_0`, `AI_1` even though the
original keys were `Alpha`, `Beta`, `Gamma`. -/
theorem c10_witness :
    0 < lenP exC10 ∧ (deleteEntry exC10 0).2 = none ∧
    (segListByName (deleteEntry exC10 0).1 (removeAt exC10 0).2).map (·.1)
      = (List.range
          (segListByName (deleteEntry exC10 0).1 (removeAt exC10 0).2).length).map
          (fun i => (removeAt exC10 0).2 ++ "_" ++ toString i) :=
  ⟨by decide, by decide, c10_delete_renumbers_segment_keys exC10 0 (by decide) (by decide)⟩
